import Mathlib

/-!
A keyed set over a Go map (`set.go`).

Shallow embedding of the generic `Set[U, T]` container of `set.go` and a
verification of its set algebra.

The model of a Go map.

A value of Go type `map[U]T` is a finite mapping with pairwise distinct keys
whose iteration order is unspecified.  It is modelled by `GoMap U T`, an
association list without duplicate keys (`AList`):

* `m[k] = v`        is `AList.insert k v m`,
* `delete(m, k)`    is `AList.erase k m`,
* `_, ok := m[k]`   is `(AList.lookup k m).isSome`,
* `len(m)`          is `m.entries.length`,
* `for k, v := range m` visits `m.entries` from left to right.

The order of the entries of a `GoMap` stands for the order in which `range`
happens to visit the map.  Every theorem below quantifies over all maps, hence
over every such order, and describes results through `lookup` and `Len`, which
do not depend on the order (`GoMap.perm_of_lookup_eq`).

A loop that deletes from the map it ranges over (`Set.Intersect`,
`Set.Difference`) follows the Go rule that an entry removed before it has been
reached is not produced: the loop walks the entries present when it started and
skips those that are no longer in the map.

A `Set` is passed by value in Go, but its `Elems` field is a reference to the
map, so the methods with a value receiver that write to `s.Elems` update the
caller's set.  Such a method is modelled by a function returning the new
state of the receiver.  In `s.Union(other)`, `s.Intersect(other)` and
`s.Difference(other)` the argument is a map distinct from the receiver's; the
calls in which both are the same map are modelled apart (`Set.UnionSelf`,
`Set.IntersectSelf`, `Set.DifferenceSelf`).

The non-interference of the operations is a statement about references, so it
is made on a second transcription of the source, the namespace `Mem`, in which
maps live in a store and a `Set` holds the address of its map.  The results of
the two transcriptions agree (`Mem.deref_Union` and the lemmas next to it),
both when the two arguments of an in-place operation are distinct maps and
when they are the same map.

Keys are compared with the `==` of Go, taken here to be equality on `U`.  Key
types whose `==` is not reflexive (a floating-point NaN) or can fail at run
time (an interface holding a value that cannot be compared) are outside the
model.  The key function is a total function and `Elems` an allocated map: a
`Set` value with a nil `hasher` or a nil map, such as the zero value of the
struct, is outside the model as well.
-/

set_option linter.unusedSectionVars false

namespace KeyedSet

universe u v

/-- Go `map[U]T`: an association list with pairwise distinct keys. -/
abbrev GoMap (U : Type u) (T : Type v) := AList (fun _ : U => T)

/-- `func Id[T comparable](x T) T`. -/
def Id {T : Type u} (x : T) : T := x

/-- `type Set[U comparable, T any] struct { Elems map[U]T; hasher func(T) U }`. -/
structure Set (U : Type u) (T : Type v) where
  /-- The mapping from key to stored element. -/
  Elems : GoMap U T
  /-- The key function. -/
  hasher : T → U

variable {U : Type u} {T : Type v} [DecidableEq U]

/-- `func (s Set[U, T]) Len() int`: `len(s.Elems)`. -/
def Set.Len (s : Set U T) : Nat :=
  s.Elems.entries.length

/-- `func (s Set[U, T]) Add(elem T)`: `s.Elems[s.hasher(elem)] = elem`. -/
def Set.Add (s : Set U T) (elem : T) : Set U T :=
  { s with Elems := s.Elems.insert (s.hasher elem) elem }

/-- `func (s Set[U, T]) Remove(elem T)`: `delete(s.Elems, s.hasher(elem))`. -/
def Set.Remove (s : Set U T) (elem : T) : Set U T :=
  { s with Elems := s.Elems.erase (s.hasher elem) }

/-- `func (s Set[U, T]) Has(elem T) bool`: `_, ok := s.Elems[s.hasher(elem)]`. -/
def Set.Has (s : Set U T) (elem : T) : Bool :=
  (s.Elems.lookup (s.hasher elem)).isSome

/-- `func NewSet(elems []T, hasher func(T) U) Set[U, T]`: an empty map, then
`s.Add(elem)` for each element in slice order. -/
def NewSet (elems : List T) (hasher : T → U) : Set U T :=
  elems.foldl (fun s elem => s.Add elem) { Elems := ∅, hasher := hasher }

/-- `func NewEmptySet(hasher func(T) U) Set[U, T]`: `NewSet([]T{}, hasher)`. -/
def NewEmptySet (hasher : T → U) : Set U T :=
  NewSet [] hasher

/-- `func NewSimpleSet[U comparable]() Set[U, U]`: `NewSet([]U{}, Id[U])`. -/
def NewSimpleSet : Set U U :=
  NewSet [] Id

/-- `func (s Set[U, T]) ToList() []T`: appends every stored value in range order. -/
def Set.ToList (s : Set U T) : List T :=
  s.Elems.entries.foldl (fun list e => list ++ [e.2]) []

/-- `func (s Set[U, T]) Clone() Set[U, T]`: a new empty set with the same key
function, then `clone.Elems[k] = v` for every entry of `s`. -/
def Set.Clone (s : Set U T) : Set U T :=
  s.Elems.entries.foldl
    (fun clone e => { clone with Elems := clone.Elems.insert e.1 e.2 })
    (NewEmptySet s.hasher)

/-- `func (s Set[U, T]) Union(other Set[U, T])`: `s.Add(v)` for every value of
`other`; returns the new state of `s`. -/
def Set.Union (s other : Set U T) : Set U T :=
  other.Elems.entries.foldl (fun s e => s.Add e.2) s

/-- `func Union(s1, s2 Set[U, T]) Set[U, T]`: clone `s1`, then `union.Add(v)`
for every value of `s2`. -/
def Union (s1 s2 : Set U T) : Set U T :=
  s2.Elems.entries.foldl (fun union e => union.Add e.2) s1.Clone

/-- One iteration of the loop of the in-place `Intersect` at the entry with key
`k` of the map at loop start.  An entry already deleted is not produced; a
produced entry `(k, v)` is removed through `s.Remove(v)` when `other` has no
key `k`. -/
def Set.IntersectStep (other s : Set U T) (k : U) : Set U T :=
  match s.Elems.lookup k with
  | none => s
  | some v => if (other.Elems.lookup k).isSome then s else s.Remove v

/-- `func (s Set[U, T]) Intersect(other Set[U, T])`: ranges over `s.Elems` and
removes, by `s.Remove(v)`, the entries whose key is not in `other`; returns the
new state of `s`. -/
def Set.Intersect (s other : Set U T) : Set U T :=
  s.Elems.entries.foldl (fun acc e => Set.IntersectStep other acc e.1) s

/-- `func Intersect(s1, s2 Set[U, T]) Set[U, T]`: a new empty set with the key
function of `s1`, then `intersection.Add(v)` for every entry `(k, v)` of `s1`
whose key `k` is in `s2`. -/
def Intersect (s1 s2 : Set U T) : Set U T :=
  s1.Elems.entries.foldl
    (fun intersection e =>
      if (s2.Elems.lookup e.1).isSome then intersection.Add e.2 else intersection)
    (NewEmptySet s1.hasher)

/-- One iteration of the loop of the in-place `Difference` at the entry with
key `k` of the map at loop start.  An entry already deleted is not produced; a
produced entry `(k, v)` is removed through `s.Remove(v)` when `other` has the
key `k`. -/
def Set.DifferenceStep (other s : Set U T) (k : U) : Set U T :=
  match s.Elems.lookup k with
  | none => s
  | some v => if (other.Elems.lookup k).isSome then s.Remove v else s

/-- `func (s Set[U, T]) Difference(other Set[U, T])`: ranges over `s.Elems` and
removes, by `s.Remove(v)`, the entries whose key is in `other`; returns the new
state of `s`. -/
def Set.Difference (s other : Set U T) : Set U T :=
  s.Elems.entries.foldl (fun acc e => Set.DifferenceStep other acc e.1) s

/-- `func Difference(s1, s2 Set[U, T]) Set[U, T]`: a new empty set with the key
function of `s1`, then `diff.Add(v)` for every entry `(k, v)` of `s1` whose key
`k` is not in `s2`. -/
def Difference (s1 s2 : Set U T) : Set U T :=
  s1.Elems.entries.foldl
    (fun diff e =>
      if (s2.Elems.lookup e.1).isSome then diff else diff.Add e.2)
    (NewEmptySet s1.hasher)

/-- The call `s.Union(s)`, in which `other.Elems` is the very map that `Add`
writes to.  The loop ranges over the map it updates: it walks the entries
present at loop start, reads each value from the current map and adds it.  An
entry created during a range may or may not be produced in Go; the loop below
produces none of them, which is exact whenever no key is created, as is the
case for a set that satisfies the key invariant. -/
def Set.UnionSelf (s : Set U T) : Set U T :=
  s.Elems.entries.foldl
    (fun acc e =>
      match acc.Elems.lookup e.1 with
      | none => acc
      | some v => acc.Add v)
    s

/-- The call `s.Intersect(s)`: the test `_, ok := other.Elems[k]` reads the map
that the loop is deleting from. -/
def Set.IntersectSelf (s : Set U T) : Set U T :=
  s.Elems.entries.foldl (fun acc e => Set.IntersectStep acc acc e.1) s

/-- The call `s.Difference(s)`: the test `_, ok := other.Elems[k]` reads the map
that the loop is deleting from. -/
def Set.DifferenceSelf (s : Set U T) : Set U T :=
  s.Elems.entries.foldl (fun acc e => Set.DifferenceStep acc acc e.1) s

/-- `func (s Set[U, T]) IsSubset(other Set[U, T]) bool`:
`Intersect(s, other).Len() == s.Len()`. -/
def Set.IsSubset (s other : Set U T) : Bool :=
  (KeyedSet.Intersect s other).Len == s.Len

/-- `func IsSubset(s1, s2 Set[U, T]) bool`: `s1.IsSubset(s2)`. -/
def IsSubset (s1 s2 : Set U T) : Bool :=
  s1.IsSubset s2

/-- `func (s Set[U, T]) IsSuperset(other Set[U, T]) bool`: `other.IsSubset(s)`. -/
def Set.IsSuperset (s other : Set U T) : Bool :=
  other.IsSubset s

/-- `func IsSuperset(s1, s2 Set[U, T]) bool`: `s1.IsSuperset(s2)`. -/
def IsSuperset (s1 s2 : Set U T) : Bool :=
  s1.IsSuperset s2

/-- `func (s Set[U, T]) IsDisjoint(other Set[U, T]) bool`:
`Intersect(s, other).Len() == 0`. -/
def Set.IsDisjoint (s other : Set U T) : Bool :=
  (KeyedSet.Intersect s other).Len == 0

/-- `func IsDisjoint(s1, s2 Set[U, T]) bool`: `s1.IsDisjoint(s2)`. -/
def IsDisjoint (s1 s2 : Set U T) : Bool :=
  s1.IsDisjoint s2

/-- The loop of `Equal`: `for k := range s.Elems`, returning `false` at the
first key that `other` does not have and `true` when the range is exhausted. -/
def Set.EqualLoop (other : Set U T) : List (Sigma fun _ : U => T) → Bool
  | [] => true
  | e :: rest => if (other.Elems.lookup e.1).isSome then Set.EqualLoop other rest else false

/-- `func (s Set[U, T]) Equal(other Set[U, T]) bool`: `false` when the lengths
differ, otherwise the result of the loop over the keys of `s`. -/
def Set.Equal (s other : Set U T) : Bool :=
  if s.Len ≠ other.Len then false else Set.EqualLoop other s.Elems.entries

/-- `func Equal(s1, s2 Set[U, T]) bool`: `s1.Equal(s2)`. -/
def Equal (s1 s2 : Set U T) : Bool :=
  s1.Equal s2

/-- The key invariant of the data model: every entry `(k, v)` of the mapping
satisfies `hasher(v) = k`. -/
def Set.KeyInv (s : Set U T) : Prop :=
  ∀ e ∈ s.Elems.entries, s.hasher e.2 = e.1

instance (s : Set U T) : Decidable s.KeyInv :=
  inferInstanceAs (Decidable (∀ e ∈ s.Elems.entries, s.hasher e.2 = e.1))

/-- The element type of the tests: `type MyElement struct { id int }`, with a
second field standing for the identity of the pointed-to object. -/
structure MyElement where
  id : Int
  tag : Nat
  deriving DecidableEq, Repr

/-- `func MyHash(m *MyElement) int`: `m.id`. -/
def MyHash (m : MyElement) : Int := m.id

/-- The set `s` of the tests: elements with ids 1, 2, 3 added to an empty set. -/
def testS : Set Int MyElement :=
  NewSet [⟨1, 0⟩, ⟨2, 0⟩, ⟨3, 0⟩] MyHash

/-- The set `s2` of the tests: elements with ids 4, 3 added to an empty set. -/
def testS2 : Set Int MyElement :=
  NewSet [⟨4, 1⟩, ⟨3, 1⟩] MyHash

/-- The set `s3` of `TestIsSubsetAndIsSuperset`: elements with ids 2, 3. -/
def testS3 : Set Int MyElement :=
  NewSet [⟨2, 2⟩, ⟨3, 2⟩] MyHash

/-- The set `s3` of `TestEqual`: other elements with ids 1, 2, 3, added in
another order. -/
def testS4 : Set Int MyElement :=
  NewSet [⟨3, 3⟩, ⟨1, 3⟩, ⟨2, 3⟩] MyHash

/-- A key function other than `MyHash`: every element gets the key 0. -/
def ConstHash (_ : MyElement) : Int := 0

/-- A set of the type of the tests built with the key function `ConstHash`:
a single entry, under the key 0. -/
def testConst : Set Int MyElement :=
  NewSet [⟨5, 0⟩, ⟨6, 0⟩] ConstHash

/-- A set of the type of the tests that does not satisfy the key invariant: the
element with id 2 written under the key 1, as by `s.Elems[1] = &MyElement{id: 2}`
on an empty set with the key function `MyHash`. -/
def testIll : Set Int MyElement :=
  { Elems := (∅ : GoMap Int MyElement).insert 1 ⟨2, 0⟩, hasher := MyHash }

/-! ### The operations on a store of maps

In the definitions above a map is a value.  In Go the field `Elems` is a
reference: `make` allocates a map, a `Set` value holds the address of its map,
and two `Set` values may hold the same address.  The definitions of the
namespace `Mem` follow the source statement by statement on a store of maps, so
that the writes of an operation and the maps they reach are explicit. -/

namespace Mem

/-- The store: the map at every address, and the number of maps allocated so
far.  The addresses in use are those below `next`. -/
structure Heap (U : Type u) (T : Type v) where
  /-- The map at an address. -/
  maps : Nat → GoMap U T
  /-- The next free address. -/
  next : Nat

/-- The store in which no map has been allocated. -/
def Heap.empty : Heap U T :=
  { maps := fun _ => ∅, next := 0 }

/-- A write to the map at address `a`: the map becomes `m`. -/
def Heap.write (h : Heap U T) (a : Nat) (m : GoMap U T) : Heap U T :=
  { h with maps := fun b => if b = a then m else h.maps b }

/-- `make(map[U]T)`: an empty map at the next free address; returns the
address and the new store. -/
def Heap.make (h : Heap U T) : Nat × Heap U T :=
  (h.next, { maps := fun b => if b = h.next then ∅ else h.maps b, next := h.next + 1 })

/-- `for k, v := range m` on the map at address `a`.  The loop walks the entries
the map has when the loop starts; an entry deleted before it is reached is not
produced, and the value of a produced entry is read from the map as it is
then.  Entries created during the loop are not produced. -/
def Heap.range (a : Nat) (body : U → T → Heap U T → Heap U T) (h : Heap U T) : Heap U T :=
  (h.maps a).entries.foldl
    (fun h e =>
      match (h.maps a).lookup e.1 with
      | none => h
      | some v => body e.1 v h)
    h

/-- `type Set[U comparable, T any] struct { Elems map[U]T; hasher func(T) U }`,
with the address of the map in `Elems`. -/
structure Set (U : Type u) (T : Type v) where
  /-- The address of the map. -/
  Elems : Nat
  /-- The key function. -/
  hasher : T → U

/-- `func (s Set[U, T]) Len() int`. -/
def Set.Len (s : Set U T) (h : Heap U T) : Nat :=
  (h.maps s.Elems).entries.length

/-- `func (s Set[U, T]) Add(elem T)`: `s.Elems[s.hasher(elem)] = elem`. -/
def Set.Add (s : Set U T) (elem : T) (h : Heap U T) : Heap U T :=
  h.write s.Elems ((h.maps s.Elems).insert (s.hasher elem) elem)

/-- `func (s Set[U, T]) Remove(elem T)`: `delete(s.Elems, s.hasher(elem))`. -/
def Set.Remove (s : Set U T) (elem : T) (h : Heap U T) : Heap U T :=
  h.write s.Elems ((h.maps s.Elems).erase (s.hasher elem))

/-- `func (s Set[U, T]) Has(elem T) bool`. -/
def Set.Has (s : Set U T) (elem : T) (h : Heap U T) : Bool :=
  ((h.maps s.Elems).lookup (s.hasher elem)).isSome

/-- `func NewSet(elems []T, hasher func(T) U) Set[U, T]`: `make`, then
`s.Add(elem)` for each element. -/
def NewSet (elems : List T) (hasher : T → U) (h : Heap U T) : Set U T × Heap U T :=
  let s : Set U T := { Elems := h.make.1, hasher := hasher }
  (s, elems.foldl (fun h elem => s.Add elem h) h.make.2)

/-- `func NewEmptySet(hasher func(T) U) Set[U, T]`. -/
def NewEmptySet (hasher : T → U) (h : Heap U T) : Set U T × Heap U T :=
  NewSet [] hasher h

/-- `func (s Set[U, T]) Clone() Set[U, T]`: a new empty set, then
`clone.Elems[k] = v` for every entry of `s`. -/
def Set.Clone (s : Set U T) (h : Heap U T) : Set U T × Heap U T :=
  let r := NewEmptySet s.hasher h
  (r.1, Heap.range s.Elems
    (fun k v h => h.write r.1.Elems ((h.maps r.1.Elems).insert k v)) r.2)

/-- `func (s Set[U, T]) Union(other Set[U, T])`. -/
def Set.Union (s other : Set U T) (h : Heap U T) : Heap U T :=
  Heap.range other.Elems (fun _ v h => s.Add v h) h

/-- `func Union(s1, s2 Set[U, T]) Set[U, T]`. -/
def Union (s1 s2 : Set U T) (h : Heap U T) : Set U T × Heap U T :=
  let r := s1.Clone h
  (r.1, Heap.range s2.Elems (fun _ v h => r.1.Add v h) r.2)

/-- `func (s Set[U, T]) Intersect(other Set[U, T])`. -/
def Set.Intersect (s other : Set U T) (h : Heap U T) : Heap U T :=
  Heap.range s.Elems
    (fun k v h => if ((h.maps other.Elems).lookup k).isSome then h else s.Remove v h) h

/-- `func Intersect(s1, s2 Set[U, T]) Set[U, T]`. -/
def Intersect (s1 s2 : Set U T) (h : Heap U T) : Set U T × Heap U T :=
  let r := NewEmptySet s1.hasher h
  (r.1, Heap.range s1.Elems
    (fun k v h => if ((h.maps s2.Elems).lookup k).isSome then r.1.Add v h else h) r.2)

/-- `func (s Set[U, T]) Difference(other Set[U, T])`. -/
def Set.Difference (s other : Set U T) (h : Heap U T) : Heap U T :=
  Heap.range s.Elems
    (fun k v h => if ((h.maps other.Elems).lookup k).isSome then s.Remove v h else h) h

/-- `func Difference(s1, s2 Set[U, T]) Set[U, T]`. -/
def Difference (s1 s2 : Set U T) (h : Heap U T) : Set U T × Heap U T :=
  let r := NewEmptySet s1.hasher h
  (r.1, Heap.range s1.Elems
    (fun k v h => if ((h.maps s2.Elems).lookup k).isSome then h else r.1.Add v h) r.2)

/-- `func (s Set[U, T]) IsSubset(other Set[U, T]) bool`:
`Intersect(s, other).Len() == s.Len()`; returns the answer and the store, which
holds the map allocated by `Intersect`. -/
def Set.IsSubset (s other : Set U T) (h : Heap U T) : Bool × Heap U T :=
  let r := KeyedSet.Mem.Intersect s other h
  (r.1.Len r.2 == s.Len r.2, r.2)

/-- `func IsSubset(s1, s2 Set[U, T]) bool`. -/
def IsSubset (s1 s2 : Set U T) (h : Heap U T) : Bool × Heap U T :=
  s1.IsSubset s2 h

/-- `func (s Set[U, T]) IsSuperset(other Set[U, T]) bool`. -/
def Set.IsSuperset (s other : Set U T) (h : Heap U T) : Bool × Heap U T :=
  other.IsSubset s h

/-- `func IsSuperset(s1, s2 Set[U, T]) bool`. -/
def IsSuperset (s1 s2 : Set U T) (h : Heap U T) : Bool × Heap U T :=
  s1.IsSuperset s2 h

/-- `func (s Set[U, T]) IsDisjoint(other Set[U, T]) bool`:
`Intersect(s, other).Len() == 0`. -/
def Set.IsDisjoint (s other : Set U T) (h : Heap U T) : Bool × Heap U T :=
  let r := KeyedSet.Mem.Intersect s other h
  (r.1.Len r.2 == 0, r.2)

/-- `func IsDisjoint(s1, s2 Set[U, T]) bool`. -/
def IsDisjoint (s1 s2 : Set U T) (h : Heap U T) : Bool × Heap U T :=
  s1.IsDisjoint s2 h

/-- The loop of `Equal` over the keys of `s`: it only reads. -/
def Set.EqualLoop (other : Set U T) (h : Heap U T) : List (Sigma fun _ : U => T) → Bool
  | [] => true
  | e :: rest =>
    if ((h.maps other.Elems).lookup e.1).isSome then Set.EqualLoop other h rest else false

/-- `func (s Set[U, T]) Equal(other Set[U, T]) bool`: it contains no write, so
the store it returns is the one it was given. -/
def Set.Equal (s other : Set U T) (h : Heap U T) : Bool × Heap U T :=
  (if s.Len h ≠ other.Len h then false
    else Set.EqualLoop other h (h.maps s.Elems).entries, h)

/-- `func Equal(s1, s2 Set[U, T]) bool`. -/
def Equal (s1 s2 : Set U T) (h : Heap U T) : Bool × Heap U T :=
  s1.Equal s2 h

/-- The set at a reference, read off the store as a value. -/
def Set.deref (s : Set U T) (h : Heap U T) : KeyedSet.Set U T :=
  { Elems := h.maps s.Elems, hasher := s.hasher }

/-- The store of the tests after `s` (ids 1, 2, 3) has been built at address 0
and `s2` (ids 4, 3) at address 1. -/
def testHeap : Heap Int MyElement :=
  (NewSet [⟨4, 1⟩, ⟨3, 1⟩] MyHash (NewSet [⟨1, 0⟩, ⟨2, 0⟩, ⟨3, 0⟩] MyHash Heap.empty).2).2

/-- The reference `s` of the tests. -/
def refS : Set Int MyElement := { Elems := 0, hasher := MyHash }

/-- The reference `s2` of the tests. -/
def refS2 : Set Int MyElement := { Elems := 1, hasher := MyHash }

end Mem

end KeyedSet

namespace KeyedSet

variable {U : Type u} {T : Type v} [DecidableEq U]

/-! ## Elementary facts about `Add`, `Remove`, `Has` and `Len` -/

@[simp] theorem Add_hasher (s : Set U T) (e : T) : (s.Add e).hasher = s.hasher := rfl

@[simp] theorem Remove_hasher (s : Set U T) (e : T) : (s.Remove e).hasher = s.hasher := rfl

theorem Len_eq_keys_length (s : Set U T) : s.Len = s.Elems.keys.length := by
  simp [Set.Len, AList.keys, List.keys]

theorem mem_keys_iff_isSome (m : GoMap U T) (k : U) :
    k ∈ m.keys ↔ (m.lookup k).isSome = true := by
  rw [AList.lookup_isSome, AList.mem_keys]

theorem Has_iff_mem_keys (s : Set U T) (e : T) :
    s.Has e = true ↔ s.hasher e ∈ s.Elems.keys := by
  rw [mem_keys_iff_isSome]; rfl

theorem lookup_Add (s : Set U T) (e : T) (k : U) :
    (s.Add e).Elems.lookup k = if k = s.hasher e then some e else s.Elems.lookup k := by
  by_cases h : k = s.hasher e
  · subst h
    simp [Set.Add, AList.lookup_insert]
  · simp [Set.Add, AList.lookup_insert_ne h, h]

theorem lookup_Remove (s : Set U T) (e : T) (k : U) :
    (s.Remove e).Elems.lookup k = if k = s.hasher e then none else s.Elems.lookup k := by
  by_cases h : k = s.hasher e
  · subst h
    simp [Set.Remove, AList.lookup_erase]
  · simp [Set.Remove, AList.lookup_erase_ne h, h]

theorem Len_Add_of_mem (s : Set U T) (e : T) (h : s.hasher e ∈ s.Elems.keys) :
    (s.Add e).Len = s.Len := by
  have hpos : 0 < s.Elems.keys.length := List.length_pos_of_mem h
  rw [Len_eq_keys_length, Len_eq_keys_length]
  simp only [Set.Add, AList.keys_insert, List.length_cons, List.length_erase_of_mem h]
  omega

theorem Len_Add_of_not_mem (s : Set U T) (e : T) (h : s.hasher e ∉ s.Elems.keys) :
    (s.Add e).Len = s.Len + 1 := by
  rw [Len_eq_keys_length, Len_eq_keys_length]
  simp only [Set.Add, AList.keys_insert, List.length_cons, List.erase_of_not_mem h]

theorem Len_Add_pos (s : Set U T) (e : T) : 0 < (s.Add e).Len := by
  rw [Len_eq_keys_length]
  simp [Set.Add, AList.keys_insert]

theorem Len_Remove_of_mem (s : Set U T) (e : T) (h : s.hasher e ∈ s.Elems.keys) :
    (s.Remove e).Len = s.Len - 1 := by
  rw [Len_eq_keys_length, Len_eq_keys_length]
  simp only [Set.Remove, AList.keys_erase, List.length_erase_of_mem h]

theorem Remove_of_not_mem (s : Set U T) (e : T) (h : s.hasher e ∉ s.Elems.keys) :
    s.Remove e = s := by
  cases s with
  | mk m hs =>
    simp only [Set.Remove]
    congr 1
    apply AList.ext
    exact List.kerase_of_not_mem_keys h

/-- Two maps with the same value under every key have the same entries up to
their order. -/
theorem GoMap.perm_of_lookup_eq {m₁ m₂ : GoMap U T}
    (h : ∀ k, m₁.lookup k = m₂.lookup k) : m₁.entries.Perm m₂.entries := by
  apply List.lookup_ext m₁.nodupKeys m₂.nodupKeys
  intro x y
  have := h x
  simp only [AList.lookup] at this
  rw [this]

theorem Len_eq_of_lookup_eq {s₁ s₂ : Set U T}
    (h : ∀ k, s₁.Elems.lookup k = s₂.Elems.lookup k) : s₁.Len = s₂.Len :=
  (GoMap.perm_of_lookup_eq h).length_eq

/-- The length of a map whose keys are exactly the members of a duplicate-free
list. -/
theorem Len_eq_of_keys {s : Set U T} {l : List U} (hl : l.Nodup)
    (h : ∀ k, k ∈ s.Elems.keys ↔ k ∈ l) : s.Len = l.length := by
  rw [Len_eq_keys_length]
  exact ((List.perm_ext_iff_of_nodup s.Elems.keys_nodup hl).2 h).length_eq

theorem KeyInv_iff_lookup (s : Set U T) :
    s.KeyInv ↔ ∀ k v, s.Elems.lookup k = some v → s.hasher v = k := by
  constructor
  · intro h k v hkv
    have hm : (⟨k, v⟩ : Sigma fun _ : U => T) ∈ s.Elems.entries :=
      AList.mem_lookup_iff.1 (by simp [hkv])
    exact h _ hm
  · intro h e he
    apply h e.1 e.2
    have : e.2 ∈ s.Elems.lookup e.1 := AList.mem_lookup_iff.2 (by simpa using he)
    simpa using this

/-! ## `NewSet` and folds of `Add` -/

theorem foldl_Add_hasher (xs : List T) (acc : Set U T) :
    (xs.foldl (fun s x => s.Add x) acc).hasher = acc.hasher := by
  induction xs generalizing acc with
  | nil => rfl
  | cons x xs ih => simp [List.foldl_cons, ih]

theorem NewSet_hasher (xs : List T) (h : T → U) : (NewSet xs h).hasher = h := by
  simp [NewSet, foldl_Add_hasher]

theorem NewSet_append_singleton (xs : List T) (x : T) (h : T → U) :
    NewSet (xs ++ [x]) h = (NewSet xs h).Add x := by
  simp [NewSet, List.foldl_append]

theorem NewSet_lookup (xs : List T) (h : T → U) (k : U) :
    (NewSet xs h).Elems.lookup k = xs.reverse.find? (fun x => decide (h x = k)) := by
  induction xs using List.reverseRecOn with
  | nil => simp [NewSet, AList.lookup_empty]
  | append_singleton xs x ih =>
    rw [NewSet_append_singleton, lookup_Add, NewSet_hasher, ih]
    simp only [List.reverse_append, List.reverse_cons, List.reverse_nil, List.nil_append,
      List.singleton_append, List.find?_cons]
    by_cases hk : k = h x
    · subst hk; simp
    · have hk2 : ¬ h x = k := fun e => hk e.symm
      simp [hk, hk2]

theorem NewSet_mem_keys (xs : List T) (h : T → U) (k : U) :
    k ∈ (NewSet xs h).Elems.keys ↔ k ∈ xs.map h := by
  rw [mem_keys_iff_isSome, NewSet_lookup, List.find?_isSome]
  simp only [List.mem_reverse, decide_eq_true_eq, List.mem_map]

theorem NewSet_Len (xs : List T) (h : T → U) :
    (NewSet xs h).Len = (xs.map h).dedup.length :=
  Len_eq_of_keys (List.nodup_dedup _) (fun k => by rw [NewSet_mem_keys, List.mem_dedup])

/-! ## The loops of the pure operations -/

theorem foldl_AddIf_hasher (p : U → Bool) (l : List (Sigma fun _ : U => T)) (acc : Set U T) :
    (l.foldl (fun a e => if p e.1 then a.Add e.2 else a) acc).hasher = acc.hasher := by
  induction l generalizing acc with
  | nil => rfl
  | cons e l ih =>
    rw [List.foldl_cons, ih]
    split <;> rfl

/-- The map built by a loop that adds the values of the entries of `l` whose
key passes `p`, when every value of `l` is hashed to its key. -/
theorem foldl_AddIf_lookup (p : U → Bool) (l : List (Sigma fun _ : U => T)) (acc : Set U T)
    (hnd : l.NodupKeys) (hinv : ∀ e ∈ l, acc.hasher e.2 = e.1) (k : U) :
    (l.foldl (fun a e => if p e.1 then a.Add e.2 else a) acc).Elems.lookup k =
      if p k then (l.dlookup k).or (acc.Elems.lookup k) else acc.Elems.lookup k := by
  induction l generalizing acc with
  | nil => simp
  | cons e l ih =>
    obtain ⟨hnot, hnd'⟩ := List.nodupKeys_cons.1 hnd
    have he : acc.hasher e.2 = e.1 := hinv e (List.mem_cons_self _ _)
    rw [List.foldl_cons, ih _ hnd']
    · by_cases hk : k = e.1
      · subst hk
        have hnone : List.dlookup e.1 l = none := List.dlookup_eq_none.2 hnot
        have hsome : List.dlookup e.1 (e :: l) = some e.2 := by
          cases e with
          | mk a b => exact List.dlookup_cons_eq l a b
        rw [hnone, hsome]
        by_cases hp : p e.1 = true
        · simp [hp, lookup_Add, he]
        · simp [hp]
      · have hne : List.dlookup k (e :: l) = List.dlookup k l := List.dlookup_cons_ne l e hk
        rw [hne]
        by_cases hp : p e.1 = true
        · simp [hp, lookup_Add, he, hk]
        · simp [hp]
    · intro e' he'
      have := hinv e' (List.mem_cons_of_mem _ he')
      split <;> simpa using this

/-- A loop of conditional `Add`s ends with an empty map exactly when it started
with one and added nothing. -/
theorem foldl_AddIf_Len_eq_zero (p : U → Bool) (l : List (Sigma fun _ : U => T))
    (acc : Set U T) :
    (l.foldl (fun a e => if p e.1 then a.Add e.2 else a) acc).Len = 0 ↔
      acc.Len = 0 ∧ ∀ e ∈ l, p e.1 = false := by
  induction l generalizing acc with
  | nil => simp
  | cons e l ih =>
    rw [List.foldl_cons, ih]
    by_cases hp : p e.1 = true
    · have := Len_Add_pos acc e.2
      simp [hp]
      omega
    · simp [hp]

theorem NewEmptySet_hasher (h : T → U) : (NewEmptySet h).hasher = h := rfl

theorem NewEmptySet_lookup (h : T → U) (k : U) : (NewEmptySet h).Elems.lookup k = none := rfl

theorem NewEmptySet_Len (h : T → U) : (NewEmptySet h).Len = 0 := rfl

theorem lookup_eq_none_of_Len_eq_zero (s : Set U T) (h : s.Len = 0) (k : U) :
    s.Elems.lookup k = none := by
  have : s.Elems.entries = [] := List.length_eq_zero.1 h
  simp [AList.lookup, this]

/-! ### `Clone` -/

theorem foldl_insert_hasher (l : List (Sigma fun _ : U => T)) (acc : Set U T) :
    (l.foldl (fun (clone : Set U T) e =>
      { clone with Elems := clone.Elems.insert e.1 e.2 }) acc).hasher = acc.hasher := by
  induction l generalizing acc with
  | nil => rfl
  | cons e l ih => rw [List.foldl_cons, ih]

theorem foldl_insert_lookup (l : List (Sigma fun _ : U => T)) (acc : Set U T)
    (hnd : l.NodupKeys) (k : U) :
    (l.foldl (fun (clone : Set U T) e =>
      { clone with Elems := clone.Elems.insert e.1 e.2 }) acc).Elems.lookup k =
      (l.dlookup k).or (acc.Elems.lookup k) := by
  induction l generalizing acc with
  | nil => simp
  | cons e l ih =>
    obtain ⟨hnot, hnd'⟩ := List.nodupKeys_cons.1 hnd
    rw [List.foldl_cons, ih _ hnd']
    by_cases hk : k = e.1
    · subst hk
      have hnone : List.dlookup e.1 l = none := List.dlookup_eq_none.2 hnot
      have hsome : List.dlookup e.1 (e :: l) = some e.2 := by
        cases e with
        | mk a b => exact List.dlookup_cons_eq l a b
      rw [hnone, hsome]
      simp [AList.lookup_insert]
    · have hne : List.dlookup k (e :: l) = List.dlookup k l := List.dlookup_cons_ne l e hk
      rw [hne]
      simp [AList.lookup_insert_ne hk]

theorem Clone_hasher (s : Set U T) : s.Clone.hasher = s.hasher := by
  simp [Set.Clone, foldl_insert_hasher, NewEmptySet_hasher]

theorem Clone_lookup (s : Set U T) (k : U) : s.Clone.Elems.lookup k = s.Elems.lookup k := by
  rw [Set.Clone, foldl_insert_lookup _ _ s.Elems.nodupKeys, NewEmptySet_lookup]
  simp [AList.lookup]

/-! ### Pure `Union`, `Intersect`, `Difference` -/

theorem Union_hasher (s1 s2 : Set U T) : (Union s1 s2).hasher = s1.hasher := by
  have := foldl_AddIf_hasher (fun _ => true) s2.Elems.entries s1.Clone
  simp only [if_true] at this
  rw [Union, this, Clone_hasher]

theorem Union_lookup (s1 s2 : Set U T) (hh : s1.hasher = s2.hasher) (h2 : s2.KeyInv) (k : U) :
    (Union s1 s2).Elems.lookup k = (s2.Elems.lookup k).or (s1.Elems.lookup k) := by
  have := foldl_AddIf_lookup (fun _ => true) s2.Elems.entries s1.Clone s2.Elems.nodupKeys
    (fun e he => by rw [Clone_hasher, hh]; exact h2 e he) k
  simp only [if_true] at this
  rw [Union, this, Clone_lookup]
  rfl

theorem Intersect_hasher (s1 s2 : Set U T) : (Intersect s1 s2).hasher = s1.hasher :=
  foldl_AddIf_hasher (fun k => (s2.Elems.lookup k).isSome) s1.Elems.entries _

theorem Intersect_lookup (s1 s2 : Set U T) (h1 : s1.KeyInv) (k : U) :
    (Intersect s1 s2).Elems.lookup k =
      if (s2.Elems.lookup k).isSome then s1.Elems.lookup k else none := by
  have := foldl_AddIf_lookup (fun k => (s2.Elems.lookup k).isSome) s1.Elems.entries
    (NewEmptySet s1.hasher) s1.Elems.nodupKeys (fun e he => h1 e he) k
  rw [Intersect, this, NewEmptySet_lookup]
  simp [AList.lookup]

theorem Intersect_Len_eq_zero (s1 s2 : Set U T) :
    (Intersect s1 s2).Len = 0 ↔ ∀ k, ¬ (k ∈ s1.Elems.keys ∧ k ∈ s2.Elems.keys) := by
  rw [Intersect, foldl_AddIf_Len_eq_zero (fun k => (s2.Elems.lookup k).isSome)]
  simp only [NewEmptySet_Len, true_and, not_and]
  constructor
  · intro h k hk1 hk2
    obtain ⟨v, hv⟩ := List.exists_of_mem_keys hk1
    have := h _ hv
    rw [mem_keys_iff_isSome] at hk2
    simp [hk2] at this
  · intro h e he
    have hk1 : e.1 ∈ s1.Elems.keys := List.mem_keys_of_mem he
    have := h _ hk1
    rw [mem_keys_iff_isSome] at this
    simpa using this

theorem Difference_eq_foldl (s1 s2 : Set U T) :
    Difference s1 s2 = s1.Elems.entries.foldl
      (fun a e => if (fun k => !(s2.Elems.lookup k).isSome) e.1 then a.Add e.2 else a)
      (NewEmptySet s1.hasher) := by
  unfold Difference
  congr 1
  funext a e
  by_cases h : (s2.Elems.lookup e.1).isSome = true <;> simp [h]

theorem Difference_hasher (s1 s2 : Set U T) : (Difference s1 s2).hasher = s1.hasher := by
  rw [Difference_eq_foldl]
  exact foldl_AddIf_hasher (fun k => !(s2.Elems.lookup k).isSome) s1.Elems.entries _

theorem Difference_lookup (s1 s2 : Set U T) (h1 : s1.KeyInv) (k : U) :
    (Difference s1 s2).Elems.lookup k =
      if (s2.Elems.lookup k).isSome then none else s1.Elems.lookup k := by
  have := foldl_AddIf_lookup (fun k => !(s2.Elems.lookup k).isSome) s1.Elems.entries
    (NewEmptySet s1.hasher) s1.Elems.nodupKeys (fun e he => h1 e he) k
  rw [Difference_eq_foldl, this, NewEmptySet_lookup]
  cases (s2.Elems.lookup k).isSome <;> simp [AList.lookup]

/-! ## The loops of the in-place operations -/

theorem Remove_KeyInv (s : Set U T) (e : T) (h : s.KeyInv) : (s.Remove e).KeyInv := by
  intro x hx
  exact h x ((List.kerase_sublist _ _).subset hx)

/-- A loop whose step deletes the entry at the visited key when the key passes
`p`, and does nothing otherwise, deletes exactly the visited keys that pass
`p`. -/
theorem foldl_step_lookup (p : U → Bool) (f : Set U T → U → Set U T)
    (hf : ∀ acc k', acc.KeyInv → (f acc k').KeyInv ∧ ∀ k, (f acc k').Elems.lookup k =
      if k = k' ∧ p k = true then none else acc.Elems.lookup k)
    (l : List (Sigma fun _ : U => T)) (acc : Set U T) (hinv : acc.KeyInv) (k : U) :
    (l.foldl (fun a e => f a e.1) acc).Elems.lookup k =
      if k ∈ l.keys ∧ p k = true then none else acc.Elems.lookup k := by
  induction l generalizing acc with
  | nil => simp
  | cons e l ih =>
    obtain ⟨hinv', hlk⟩ := hf acc e.1 hinv
    rw [List.foldl_cons, ih _ hinv', hlk k]
    by_cases hp : p k = true
    · by_cases hk : k = e.1
      · subst hk
        simp [hp]
      · by_cases hl : k ∈ l.keys <;> simp [hp, hk, hl]
    · simp [hp]

theorem foldl_step_hasher (f : Set U T → U → Set U T)
    (hf : ∀ acc k', (f acc k').hasher = acc.hasher)
    (l : List (Sigma fun _ : U => T)) (acc : Set U T) :
    (l.foldl (fun a e => f a e.1) acc).hasher = acc.hasher := by
  induction l generalizing acc with
  | nil => rfl
  | cons e l ih => rw [List.foldl_cons, ih, hf]

theorem IntersectStep_hasher (other acc : Set U T) (k' : U) :
    (Set.IntersectStep other acc k').hasher = acc.hasher := by
  unfold Set.IntersectStep
  split
  · rfl
  · split <;> rfl

theorem DifferenceStep_hasher (other acc : Set U T) (k' : U) :
    (Set.DifferenceStep other acc k').hasher = acc.hasher := by
  unfold Set.DifferenceStep
  split
  · rfl
  · split <;> rfl

theorem IntersectStep_spec (other acc : Set U T) (k' : U) (hinv : acc.KeyInv) :
    (Set.IntersectStep other acc k').KeyInv ∧ ∀ k, (Set.IntersectStep other acc k').Elems.lookup k =
      if k = k' ∧ (fun k => !(other.Elems.lookup k).isSome) k = true then none
      else acc.Elems.lookup k := by
  unfold Set.IntersectStep
  split
  next hnone =>
    refine ⟨hinv, fun k => ?_⟩
    split
    next hc => rw [hc.1, hnone]
    next => rfl
  next v hsome =>
    have hv : acc.hasher v = k' := (KeyInv_iff_lookup acc).1 hinv k' v hsome
    by_cases ho : (other.Elems.lookup k').isSome = true
    · rw [if_pos ho]
      refine ⟨hinv, fun k => ?_⟩
      split
      next hc =>
        obtain ⟨rfl, hc2⟩ := hc
        simp [ho] at hc2
      next => rfl
    · rw [if_neg ho]
      refine ⟨Remove_KeyInv _ _ hinv, fun k => ?_⟩
      rw [lookup_Remove, hv]
      by_cases hk : k = k'
      · subst hk; simp [ho]
      · simp [hk]

theorem DifferenceStep_spec (other acc : Set U T) (k' : U) (hinv : acc.KeyInv) :
    (Set.DifferenceStep other acc k').KeyInv ∧ ∀ k, (Set.DifferenceStep other acc k').Elems.lookup k =
      if k = k' ∧ (fun k => (other.Elems.lookup k).isSome) k = true then none
      else acc.Elems.lookup k := by
  unfold Set.DifferenceStep
  split
  next hnone =>
    refine ⟨hinv, fun k => ?_⟩
    split
    next hc => rw [hc.1, hnone]
    next => rfl
  next v hsome =>
    have hv : acc.hasher v = k' := (KeyInv_iff_lookup acc).1 hinv k' v hsome
    by_cases ho : (other.Elems.lookup k').isSome = true
    · rw [if_pos ho]
      refine ⟨Remove_KeyInv _ _ hinv, fun k => ?_⟩
      rw [lookup_Remove, hv]
      by_cases hk : k = k'
      · subst hk; simp [ho]
      · simp [hk]
    · rw [if_neg ho]
      refine ⟨hinv, fun k => ?_⟩
      split
      next hc =>
        obtain ⟨rfl, hc2⟩ := hc
        exact absurd hc2 ho
      next => rfl

theorem Set_Intersect_lookup (s other : Set U T) (hinv : s.KeyInv) (k : U) :
    (s.Intersect other).Elems.lookup k =
      if (other.Elems.lookup k).isSome then s.Elems.lookup k else none := by
  rw [Set.Intersect, foldl_step_lookup (fun k => !(other.Elems.lookup k).isSome)
    (Set.IntersectStep other) (fun acc k' h => IntersectStep_spec other acc k' h) _ _ hinv]
  by_cases ho : (other.Elems.lookup k).isSome = true
  · simp [ho]
  · by_cases hk : k ∈ s.Elems.entries.keys
    · simp [ho, hk]
    · have : s.Elems.lookup k = none := AList.lookup_eq_none.2 hk
      simp [ho, this]

theorem Set_Difference_lookup (s other : Set U T) (hinv : s.KeyInv) (k : U) :
    (s.Difference other).Elems.lookup k =
      if (other.Elems.lookup k).isSome then none else s.Elems.lookup k := by
  rw [Set.Difference, foldl_step_lookup (fun k => (other.Elems.lookup k).isSome)
    (Set.DifferenceStep other) (fun acc k' h => DifferenceStep_spec other acc k' h) _ _ hinv]
  by_cases ho : (other.Elems.lookup k).isSome = true
  · by_cases hk : k ∈ s.Elems.entries.keys
    · simp [ho, hk]
    · have : s.Elems.lookup k = none := AList.lookup_eq_none.2 hk
      simp [ho, this]
  · simp [ho]

theorem foldl_Add_lookup_congr (l : List (Sigma fun _ : U => T)) (a b : Set U T)
    (hh : a.hasher = b.hasher) (hl : ∀ k, a.Elems.lookup k = b.Elems.lookup k) (k : U) :
    (l.foldl (fun s e => s.Add e.2) a).Elems.lookup k =
      (l.foldl (fun s e => s.Add e.2) b).Elems.lookup k := by
  induction l generalizing a b with
  | nil => exact hl k
  | cons e l ih =>
    rw [List.foldl_cons, List.foldl_cons]
    apply ih
    · exact hh
    · intro k'
      rw [lookup_Add, lookup_Add, hh, hl k']

theorem Set_Union_hasher (s other : Set U T) : (s.Union other).hasher = s.hasher := by
  have := foldl_AddIf_hasher (fun _ => true) other.Elems.entries s
  simp only [if_true] at this
  rw [Set.Union, this]

theorem Set_Intersect_hasher (s other : Set U T) : (s.Intersect other).hasher = s.hasher :=
  foldl_step_hasher (Set.IntersectStep other) (IntersectStep_hasher other) _ _

theorem Set_Difference_hasher (s other : Set U T) : (s.Difference other).hasher = s.hasher :=
  foldl_step_hasher (Set.DifferenceStep other) (DifferenceStep_hasher other) _ _

/-! ## The predicates -/

theorem Intersect_mem_keys (s other : Set U T) (hs : s.KeyInv) (k : U) :
    k ∈ (Intersect s other).Elems.keys ↔
      k ∈ s.Elems.keys.filter (fun k => (other.Elems.lookup k).isSome) := by
  rw [mem_keys_iff_isSome, Intersect_lookup s other hs, List.mem_filter, mem_keys_iff_isSome]
  by_cases ho : (other.Elems.lookup k).isSome = true <;> simp [ho]

theorem Intersect_Len (s other : Set U T) (hs : s.KeyInv) :
    (Intersect s other).Len =
      (s.Elems.keys.filter (fun k => (other.Elems.lookup k).isSome)).length :=
  Len_eq_of_keys (s.Elems.keys_nodup.filter _) (Intersect_mem_keys s other hs)

theorem IsSubset_iff (s other : Set U T) (hs : s.KeyInv) :
    s.IsSubset other = true ↔ ∀ k, k ∈ s.Elems.keys → k ∈ other.Elems.keys := by
  rw [Set.IsSubset, beq_iff_eq, Intersect_Len s other hs, Len_eq_keys_length,
    List.filter_length_eq_length]
  simp only [mem_keys_iff_isSome]

theorem EqualLoop_iff (other : Set U T) (l : List (Sigma fun _ : U => T)) :
    Set.EqualLoop other l = true ↔ ∀ k, k ∈ l.keys → k ∈ other.Elems.keys := by
  induction l with
  | nil => simp [Set.EqualLoop]
  | cons e l ih =>
    rw [Set.EqualLoop]
    by_cases ho : (other.Elems.lookup e.1).isSome = true
    · have hm : e.1 ∈ other.Elems.keys := (mem_keys_iff_isSome _ _).2 ho
      rw [if_pos ho, ih]
      simp [List.keys_cons, hm]
    · have hm : e.1 ∉ other.Elems.keys := fun h => ho ((mem_keys_iff_isSome _ _).1 h)
      rw [if_neg ho]
      simp [List.keys_cons, hm]

theorem Equal_iff (s other : Set U T) :
    s.Equal other = true ↔ ∀ k, k ∈ s.Elems.keys ↔ k ∈ other.Elems.keys := by
  unfold Set.Equal
  constructor
  · intro h
    by_cases hlen : s.Len ≠ other.Len
    · simp [hlen] at h
    · rw [if_neg hlen, EqualLoop_iff] at h
      have hlen' : s.Elems.keys.length = other.Elems.keys.length := by
        rw [← Len_eq_keys_length, ← Len_eq_keys_length]
        exact not_not.1 hlen
      have hsub : s.Elems.keys ⊆ other.Elems.keys := fun k hk => h k hk
      have hperm : s.Elems.keys.Perm other.Elems.keys :=
        (List.subperm_of_subset s.Elems.keys_nodup hsub).perm_of_length_le (le_of_eq hlen'.symm)
      exact fun k => hperm.mem_iff
  · intro h
    have hperm : s.Elems.keys.Perm other.Elems.keys :=
      (List.perm_ext_iff_of_nodup s.Elems.keys_nodup other.Elems.keys_nodup).2 h
    have hlen : ¬ s.Len ≠ other.Len := by
      rw [Len_eq_keys_length, Len_eq_keys_length]
      exact not_not.2 hperm.length_eq
    rw [if_neg hlen, EqualLoop_iff]
    exact fun k hk => (h k).1 hk

/-! ### The in-place operations called with the receiver as argument -/

theorem Add_KeyInv (s : Set U T) (e : T) (h : s.KeyInv) : (s.Add e).KeyInv := by
  intro x hx
  simp only [Set.Add, AList.insert_entries, List.mem_cons] at hx
  rcases hx with rfl | hx
  · rfl
  · exact h x ((List.kerase_sublist _ _).subset hx)

theorem UnionSelf_step_spec (acc : Set U T) (k' : U) (hinv : acc.KeyInv) :
    (match acc.Elems.lookup k' with
      | none => acc
      | some v => acc.Add v).KeyInv ∧
    ∀ k, (match acc.Elems.lookup k' with
      | none => acc
      | some v => acc.Add v).Elems.lookup k =
      if k = k' ∧ (fun _ : U => false) k = true then none else acc.Elems.lookup k := by
  split
  next => exact ⟨hinv, fun k => by simp⟩
  next v hsome =>
    have hv : acc.hasher v = k' := (KeyInv_iff_lookup acc).1 hinv k' v hsome
    refine ⟨Add_KeyInv _ _ hinv, fun k => ?_⟩
    rw [lookup_Add, hv]
    by_cases hk : k = k'
    · subst hk; simp [hsome]
    · simp [hk]

theorem IntersectStep_self (acc : Set U T) (k' : U) : Set.IntersectStep acc acc k' = acc := by
  unfold Set.IntersectStep
  split
  next => rfl
  next v hsome => simp [hsome]

theorem DifferenceSelf_step_spec (acc : Set U T) (k' : U) (hinv : acc.KeyInv) :
    (Set.DifferenceStep acc acc k').KeyInv ∧
    ∀ k, (Set.DifferenceStep acc acc k').Elems.lookup k =
      if k = k' ∧ (fun _ : U => true) k = true then none else acc.Elems.lookup k := by
  unfold Set.DifferenceStep
  split
  next hnone =>
    refine ⟨hinv, fun k => ?_⟩
    by_cases hk : k = k'
    · subst hk; simp [hnone]
    · simp [hk]
  next v hsome =>
    have hv : acc.hasher v = k' := (KeyInv_iff_lookup acc).1 hinv k' v hsome
    rw [if_pos (by simp [hsome])]
    refine ⟨Remove_KeyInv _ _ hinv, fun k => ?_⟩
    rw [lookup_Remove, hv]
    by_cases hk : k = k' <;> simp [hk]

theorem UnionSelf_lookup (s : Set U T) (hinv : s.KeyInv) (k : U) :
    s.UnionSelf.Elems.lookup k = s.Elems.lookup k := by
  have := foldl_step_lookup (fun _ : U => false)
    (fun (acc : Set U T) k' =>
      match acc.Elems.lookup k' with
      | none => acc
      | some v => acc.Add v)
    (fun acc k' h => UnionSelf_step_spec acc k' h) s.Elems.entries s hinv k
  simp only [Bool.false_eq_true, and_false, if_false] at this
  exact this

theorem IntersectSelf_eq (s : Set U T) : s.IntersectSelf = s := by
  unfold Set.IntersectSelf
  generalize s.Elems.entries = l
  induction l with
  | nil => rfl
  | cons e l ih => rw [List.foldl_cons, IntersectStep_self, ih]

theorem DifferenceSelf_lookup (s : Set U T) (hinv : s.KeyInv) (k : U) :
    s.DifferenceSelf.Elems.lookup k = none := by
  have := foldl_step_lookup (fun _ : U => true)
    (fun (acc : Set U T) k' => Set.DifferenceStep acc acc k')
    (fun acc k' h => DifferenceSelf_step_spec acc k' h) s.Elems.entries s hinv k
  rw [Set.DifferenceSelf, this]
  by_cases hk : k ∈ s.Elems.entries.keys
  · simp [hk]
  · have : s.Elems.lookup k = none := AList.lookup_eq_none.2 hk
    simp [this]

/-! ## The key invariant -/

theorem NewEmptySet_KeyInv (h : T → U) : (NewEmptySet h).KeyInv := by
  intro e he
  simp [NewEmptySet, NewSet] at he

theorem foldl_Add_KeyInv (xs : List T) (acc : Set U T) (h : acc.KeyInv) :
    (xs.foldl (fun s x => s.Add x) acc).KeyInv := by
  induction xs generalizing acc with
  | nil => exact h
  | cons x xs ih => exact ih _ (Add_KeyInv acc x h)

theorem NewSet_KeyInv (xs : List T) (h : T → U) : (NewSet xs h).KeyInv :=
  foldl_Add_KeyInv xs _ (NewEmptySet_KeyInv h)

theorem foldl_AddIf_KeyInv (p : U → Bool) (l : List (Sigma fun _ : U => T)) (acc : Set U T)
    (h : acc.KeyInv) :
    (l.foldl (fun a e => if p e.1 then a.Add e.2 else a) acc).KeyInv := by
  induction l generalizing acc with
  | nil => exact h
  | cons e l ih =>
    rw [List.foldl_cons]
    apply ih
    split
    · exact Add_KeyInv acc e.2 h
    · exact h

theorem Clone_KeyInv (s : Set U T) (h : s.KeyInv) : s.Clone.KeyInv := by
  rw [KeyInv_iff_lookup] at h ⊢
  intro k v hkv
  rw [Clone_lookup] at hkv
  rw [Clone_hasher]
  exact h k v hkv

theorem Union_KeyInv (s1 s2 : Set U T) (h : s1.KeyInv) : (Union s1 s2).KeyInv := by
  have := foldl_AddIf_KeyInv (fun _ => true) s2.Elems.entries s1.Clone (Clone_KeyInv s1 h)
  simp only [if_true] at this
  exact this

theorem Intersect_KeyInv (s1 s2 : Set U T) : (Intersect s1 s2).KeyInv :=
  foldl_AddIf_KeyInv (fun k => (s2.Elems.lookup k).isSome) s1.Elems.entries _
    (NewEmptySet_KeyInv s1.hasher)

theorem Difference_KeyInv (s1 s2 : Set U T) : (Difference s1 s2).KeyInv := by
  rw [Difference_eq_foldl]
  exact foldl_AddIf_KeyInv (fun k => !(s2.Elems.lookup k).isSome) s1.Elems.entries _
    (NewEmptySet_KeyInv s1.hasher)

theorem Set_Union_KeyInv (s other : Set U T) (h : s.KeyInv) : (s.Union other).KeyInv := by
  have := foldl_AddIf_KeyInv (fun _ => true) other.Elems.entries s h
  simp only [if_true] at this
  exact this

theorem foldl_step_KeyInv (f : Set U T → U → Set U T)
    (hf : ∀ acc k', acc.KeyInv → (f acc k').KeyInv)
    (l : List (Sigma fun _ : U => T)) (acc : Set U T) (h : acc.KeyInv) :
    (l.foldl (fun a e => f a e.1) acc).KeyInv := by
  induction l generalizing acc with
  | nil => exact h
  | cons e l ih => exact ih _ (hf acc e.1 h)

theorem Set_Intersect_KeyInv (s other : Set U T) (h : s.KeyInv) : (s.Intersect other).KeyInv :=
  foldl_step_KeyInv (Set.IntersectStep other)
    (fun acc k' ha => (IntersectStep_spec other acc k' ha).1) _ _ h

theorem Set_Difference_KeyInv (s other : Set U T) (h : s.KeyInv) :
    (s.Difference other).KeyInv :=
  foldl_step_KeyInv (Set.DifferenceStep other)
    (fun acc k' ha => (DifferenceStep_spec other acc k' ha).1) _ _ h

theorem UnionSelf_KeyInv (s : Set U T) (h : s.KeyInv) : s.UnionSelf.KeyInv :=
  foldl_step_KeyInv
    (fun (acc : Set U T) k' =>
      match acc.Elems.lookup k' with
      | none => acc
      | some v => acc.Add v)
    (fun acc k' ha => (UnionSelf_step_spec acc k' ha).1) _ _ h

theorem DifferenceSelf_KeyInv (s : Set U T) (h : s.KeyInv) : s.DifferenceSelf.KeyInv :=
  foldl_step_KeyInv (fun (acc : Set U T) k' => Set.DifferenceStep acc acc k')
    (fun acc k' ha => (DifferenceSelf_step_spec acc k' ha).1) _ _ h

theorem Set_Union_lookup (s other : Set U T) (hh : s.hasher = other.hasher)
    (ho : other.KeyInv) (k : U) :
    (s.Union other).Elems.lookup k = (other.Elems.lookup k).or (s.Elems.lookup k) := by
  have := foldl_AddIf_lookup (fun _ => true) other.Elems.entries s other.Elems.nodupKeys
    (fun e he => by rw [hh]; exact ho e he) k
  simp only [if_true] at this
  rw [Set.Union, this]
  rfl

/-! ## Cardinalities -/

theorem Len_eq_card (s : Set U T) : s.Len = s.Elems.keys.toFinset.card := by
  rw [Len_eq_keys_length, List.toFinset_card_of_nodup s.Elems.keys_nodup]

theorem Len_Add_bounds (s : Set U T) (e : T) :
    s.Len ≤ (s.Add e).Len ∧ (s.Add e).Len ≤ s.Len + 1 := by
  by_cases h : s.hasher e ∈ s.Elems.keys
  · rw [Len_Add_of_mem s e h]; omega
  · rw [Len_Add_of_not_mem s e h]; omega

theorem foldl_AddIf_Len_bounds (p : U → Bool) (l : List (Sigma fun _ : U => T))
    (acc : Set U T) :
    acc.Len ≤ (l.foldl (fun a e => if p e.1 then a.Add e.2 else a) acc).Len ∧
    (l.foldl (fun a e => if p e.1 then a.Add e.2 else a) acc).Len ≤ acc.Len + l.length := by
  induction l generalizing acc with
  | nil => simp
  | cons e l ih =>
    rw [List.foldl_cons, List.length_cons]
    have hb := Len_Add_bounds acc e.2
    by_cases hp : p e.1 = true
    · rw [if_pos hp]
      have := ih (acc.Add e.2)
      omega
    · rw [if_neg hp]
      have := ih acc
      omega

theorem Clone_Len (s : Set U T) : s.Clone.Len = s.Len :=
  Len_eq_of_lookup_eq (Clone_lookup s)

theorem Union_Len_bounds (s1 s2 : Set U T) :
    s1.Len ≤ (Union s1 s2).Len ∧ (Union s1 s2).Len ≤ s1.Len + s2.Len := by
  have := foldl_AddIf_Len_bounds (fun _ => true) s2.Elems.entries s1.Clone
  simp only [if_true, Clone_Len] at this
  exact this

theorem Union_mem_keys (s1 s2 : Set U T) (hh : s1.hasher = s2.hasher) (h2 : s2.KeyInv)
    (k : U) : k ∈ (Union s1 s2).Elems.keys ↔ k ∈ s1.Elems.keys ∨ k ∈ s2.Elems.keys := by
  simp only [mem_keys_iff_isSome, Union_lookup s1 s2 hh h2]
  cases s2.Elems.lookup k <;> simp

theorem Intersect_mem_keys_iff (s1 s2 : Set U T) (h1 : s1.KeyInv) (k : U) :
    k ∈ (Intersect s1 s2).Elems.keys ↔ k ∈ s1.Elems.keys ∧ k ∈ s2.Elems.keys := by
  simp only [mem_keys_iff_isSome, Intersect_lookup s1 s2 h1]
  by_cases ho : (s2.Elems.lookup k).isSome = true <;> simp [ho]

theorem Difference_mem_keys_iff (s1 s2 : Set U T) (h1 : s1.KeyInv) (k : U) :
    k ∈ (Difference s1 s2).Elems.keys ↔ k ∈ s1.Elems.keys ∧ k ∉ s2.Elems.keys := by
  simp only [mem_keys_iff_isSome, Difference_lookup s1 s2 h1]
  by_cases ho : (s2.Elems.lookup k).isSome = true <;> simp [ho]

theorem Union_keys_toFinset (s1 s2 : Set U T) (hh : s1.hasher = s2.hasher) (h2 : s2.KeyInv) :
    (Union s1 s2).Elems.keys.toFinset = s1.Elems.keys.toFinset ∪ s2.Elems.keys.toFinset := by
  ext k
  simp only [List.mem_toFinset, Finset.mem_union]
  exact Union_mem_keys s1 s2 hh h2 k

theorem Intersect_keys_toFinset (s1 s2 : Set U T) (h1 : s1.KeyInv) :
    (Intersect s1 s2).Elems.keys.toFinset = s1.Elems.keys.toFinset ∩ s2.Elems.keys.toFinset := by
  ext k
  simp only [List.mem_toFinset, Finset.mem_inter]
  exact Intersect_mem_keys_iff s1 s2 h1 k

theorem Difference_keys_toFinset (s1 s2 : Set U T) (h1 : s1.KeyInv) :
    (Difference s1 s2).Elems.keys.toFinset = s1.Elems.keys.toFinset \ s2.Elems.keys.toFinset := by
  ext k
  simp only [List.mem_toFinset, Finset.mem_sdiff]
  exact Difference_mem_keys_iff s1 s2 h1 k

/-! ## `ToList` -/

theorem foldl_append_snd (l : List (Sigma fun _ : U => T)) (acc : List T) :
    l.foldl (fun list e => list ++ [e.2]) acc = acc ++ l.map Sigma.snd := by
  induction l generalizing acc with
  | nil => simp
  | cons e l ih => simp [List.foldl_cons, ih]

theorem ToList_eq (s : Set U T) : s.ToList = s.Elems.entries.map Sigma.snd := by
  rw [Set.ToList, foldl_append_snd, List.nil_append]

theorem ToList_Add_of_not_mem (s : Set U T) (e : T) (h : s.hasher e ∉ s.Elems.keys) :
    (s.Add e).ToList = e :: s.ToList := by
  rw [ToList_eq, ToList_eq]
  simp only [Set.Add, AList.insert_entries, List.map_cons]
  rw [List.kerase_of_not_mem_keys h]

theorem NewSet_ToList_perm (xs : List T) (h : T → U) (hnd : (xs.map h).Nodup) :
    (NewSet xs h).ToList.Perm xs := by
  induction xs using List.reverseRecOn with
  | nil => simp [ToList_eq, NewSet]
  | append_singleton xs x ih =>
    rw [List.map_append, List.nodup_append] at hnd
    obtain ⟨hxs, -, hdis⟩ := hnd
    have hx : (NewSet xs h).hasher x ∉ (NewSet xs h).Elems.keys := by
      rw [NewSet_hasher, NewSet_mem_keys]
      intro hm
      exact hdis hm (by simp)
    rw [NewSet_append_singleton, ToList_Add_of_not_mem _ _ hx]
    exact ((ih hxs).cons x).trans (List.perm_append_singleton x xs).symm

theorem Len_eq_zero_of_lookup_eq_none (s : Set U T) (h : ∀ k, s.Elems.lookup k = none) :
    s.Len = 0 := by
  have : ∀ k, k ∈ s.Elems.keys ↔ k ∈ ([] : List U) := by
    intro k
    rw [mem_keys_iff_isSome, h k]
    simp
  simpa using Len_eq_of_keys List.nodup_nil this

/-! ## The writes of the operations on a store of maps -/

namespace Mem

theorem write_maps_of_ne (h : Heap U T) (a b : Nat) (m : GoMap U T) (hb : b ≠ a) :
    (h.write a m).maps b = h.maps b := by
  simp [Heap.write, hb]

theorem write_maps_self (h : Heap U T) (a : Nat) (m : GoMap U T) :
    (h.write a m).maps a = m := by
  simp [Heap.write]

theorem make_maps_of_ne (h : Heap U T) (b : Nat) (hb : b ≠ h.next) :
    h.make.2.maps b = h.maps b := by
  simp [Heap.make, hb]

/-- A loop whose body leaves the map at `b` as it is leaves it as it is. -/
theorem range_maps_of_frame (a b : Nat) (body : U → T → Heap U T → Heap U T)
    (hbody : ∀ k v h, (body k v h).maps b = h.maps b) (h : Heap U T) :
    (Heap.range a body h).maps b = h.maps b := by
  unfold Heap.range
  generalize (h.maps a).entries = l
  induction l generalizing h with
  | nil => rfl
  | cons e l ih =>
    rw [List.foldl_cons, ih]
    split
    · rfl
    · exact hbody _ _ _

theorem range_next (a : Nat) (body : U → T → Heap U T → Heap U T)
    (hbody : ∀ k v h, (body k v h).next = h.next) (h : Heap U T) :
    (Heap.range a body h).next = h.next := by
  unfold Heap.range
  generalize (h.maps a).entries = l
  induction l generalizing h with
  | nil => rfl
  | cons e l ih =>
    rw [List.foldl_cons, ih]
    split
    · rfl
    · exact hbody _ _ _

theorem Add_maps_of_ne (s : Set U T) (e : T) (h : Heap U T) (b : Nat) (hb : b ≠ s.Elems) :
    (s.Add e h).maps b = h.maps b :=
  write_maps_of_ne h _ b _ hb

theorem Remove_maps_of_ne (s : Set U T) (e : T) (h : Heap U T) (b : Nat) (hb : b ≠ s.Elems) :
    (s.Remove e h).maps b = h.maps b :=
  write_maps_of_ne h _ b _ hb

theorem foldl_Add_maps_of_ne (xs : List T) (s : Set U T) (h : Heap U T) (b : Nat)
    (hb : b ≠ s.Elems) :
    (xs.foldl (fun h elem => s.Add elem h) h).maps b = h.maps b := by
  induction xs generalizing h with
  | nil => rfl
  | cons x xs ih => rw [List.foldl_cons, ih, Add_maps_of_ne s x h b hb]

theorem foldl_Add_next (xs : List T) (s : Set U T) (h : Heap U T) :
    (xs.foldl (fun h elem => s.Add elem h) h).next = h.next := by
  induction xs generalizing h with
  | nil => rfl
  | cons x xs ih => rw [List.foldl_cons, ih]; rfl

theorem NewSet_Elems (xs : List T) (hs : T → U) (h : Heap U T) :
    (NewSet xs hs h).1.Elems = h.next := rfl

theorem NewSet_maps_of_ne (xs : List T) (hs : T → U) (h : Heap U T) (b : Nat)
    (hb : b ≠ h.next) : (NewSet xs hs h).2.maps b = h.maps b := by
  show (xs.foldl _ h.make.2).maps b = h.maps b
  rw [foldl_Add_maps_of_ne xs _ _ b hb, make_maps_of_ne h b hb]

theorem NewSet_next (xs : List T) (hs : T → U) (h : Heap U T) :
    (NewSet xs hs h).2.next = h.next + 1 := by
  show (xs.foldl _ h.make.2).next = h.next + 1
  rw [foldl_Add_next]
  rfl

theorem Clone_Elems (s : Set U T) (h : Heap U T) : (s.Clone h).1.Elems = h.next := rfl

theorem Clone_maps_of_ne (s : Set U T) (h : Heap U T) (b : Nat) (hb : b ≠ h.next) :
    (s.Clone h).2.maps b = h.maps b := by
  unfold Set.Clone
  refine (range_maps_of_frame _ b _ (fun k v h' => ?_) _).trans ?_
  · exact write_maps_of_ne h' _ b _ hb
  · exact NewSet_maps_of_ne [] s.hasher h b hb

theorem Clone_next (s : Set U T) (h : Heap U T) : (s.Clone h).2.next = h.next + 1 := by
  unfold Set.Clone
  refine (range_next _ _ (fun k v h' => ?_) _).trans ?_
  · rfl
  · exact NewSet_next [] s.hasher h

theorem Union_Elems (s1 s2 : Set U T) (h : Heap U T) : (Union s1 s2 h).1.Elems = h.next := rfl

theorem Union_maps_of_ne (s1 s2 : Set U T) (h : Heap U T) (b : Nat) (hb : b ≠ h.next) :
    (Union s1 s2 h).2.maps b = h.maps b := by
  unfold Union
  refine (range_maps_of_frame _ b _ (fun k v h' => ?_) _).trans ?_
  · exact Add_maps_of_ne _ v h' b hb
  · exact Clone_maps_of_ne s1 h b hb

theorem Intersect_Elems (s1 s2 : Set U T) (h : Heap U T) :
    (Intersect s1 s2 h).1.Elems = h.next := rfl

theorem Intersect_maps_of_ne (s1 s2 : Set U T) (h : Heap U T) (b : Nat) (hb : b ≠ h.next) :
    (Intersect s1 s2 h).2.maps b = h.maps b := by
  unfold Intersect
  refine (range_maps_of_frame _ b _ (fun k v h' => ?_) _).trans ?_
  · split
    · exact Add_maps_of_ne _ v h' b hb
    · rfl
  · exact NewSet_maps_of_ne [] s1.hasher h b hb

theorem Difference_Elems (s1 s2 : Set U T) (h : Heap U T) :
    (Difference s1 s2 h).1.Elems = h.next := rfl

theorem Difference_maps_of_ne (s1 s2 : Set U T) (h : Heap U T) (b : Nat) (hb : b ≠ h.next) :
    (Difference s1 s2 h).2.maps b = h.maps b := by
  unfold Difference
  refine (range_maps_of_frame _ b _ (fun k v h' => ?_) _).trans ?_
  · split
    · rfl
    · exact Add_maps_of_ne _ v h' b hb
  · exact NewSet_maps_of_ne [] s1.hasher h b hb

theorem Set_Union_maps_of_ne (s other : Set U T) (h : Heap U T) (b : Nat) (hb : b ≠ s.Elems) :
    (s.Union other h).maps b = h.maps b :=
  range_maps_of_frame _ b _ (fun _ v h' => Add_maps_of_ne s v h' b hb) h

theorem Set_Intersect_maps_of_ne (s other : Set U T) (h : Heap U T) (b : Nat)
    (hb : b ≠ s.Elems) : (s.Intersect other h).maps b = h.maps b :=
  range_maps_of_frame _ b _ (fun k v h' => by
    split
    · rfl
    · exact Remove_maps_of_ne s v h' b hb) h

theorem Set_Difference_maps_of_ne (s other : Set U T) (h : Heap U T) (b : Nat)
    (hb : b ≠ s.Elems) : (s.Difference other h).maps b = h.maps b :=
  range_maps_of_frame _ b _ (fun k v h' => by
    split
    · exact Remove_maps_of_ne s v h' b hb
    · rfl) h

end Mem

/-! ## The operations on a store compute the operations on values

Read off the store, the results of the operations of `Mem` are the results of
the operations on map values used in the contracts.  For the in-place
operations this covers both the call with another map as argument and the call
with the map of the receiver itself. -/

namespace Mem

theorem deref_write_self (r : Set U T) (h : Heap U T) (m : GoMap U T) :
    r.deref (h.write r.Elems m) = { Elems := m, hasher := r.hasher } := by
  simp [Set.deref, write_maps_self]

theorem deref_Add (r : Set U T) (e : T) (h : Heap U T) :
    r.deref (r.Add e h) = (r.deref h).Add e :=
  deref_write_self r h _

theorem deref_Remove (r : Set U T) (e : T) (h : Heap U T) :
    r.deref (r.Remove e h) = (r.deref h).Remove e :=
  deref_write_self r h _

theorem deref_of_maps_eq (r : Set U T) (h h' : Heap U T) (hm : h'.maps r.Elems = h.maps r.Elems) :
    r.deref h' = r.deref h := by
  simp [Set.deref, hm]

/-- A loop on the store whose steps act on the set at `r` as `F` does on its
value, as long as the property `I` of the store holds, computes the fold of
`F`. -/
theorem foldl_deref_sim {α : Type*} (r : Set U T) (F : KeyedSet.Set U T → α → KeyedSet.Set U T)
    (body : α → Heap U T → Heap U T) (I : Heap U T → Prop)
    (hI : ∀ e h, I h → I (body e h))
    (hF : ∀ e h, I h → r.deref (body e h) = F (r.deref h) e)
    (l : List α) (h : Heap U T) (hh : I h) :
    r.deref (l.foldl (fun h e => body e h) h) = l.foldl F (r.deref h) := by
  induction l generalizing h with
  | nil => rfl
  | cons e l ih => rw [List.foldl_cons, List.foldl_cons, ih _ (hI e h hh), hF e h hh]

/-- A range over a map that the body does not write to visits the entries of
the map in order. -/
theorem range_eq_foldl (a : Nat) (body : U → T → Heap U T → Heap U T)
    (hbody : ∀ k v h, (body k v h).maps a = h.maps a) (h : Heap U T) :
    Heap.range a body h = (h.maps a).entries.foldl (fun h e => body e.1 e.2 h) h := by
  have key : ∀ (l : List (Sigma fun _ : U => T)) (h' : Heap U T),
      (∀ e ∈ l, (h.maps a).lookup e.1 = some e.2) → h'.maps a = h.maps a →
      l.foldl (fun h e =>
        match (h.maps a).lookup e.1 with
        | none => h
        | some v => body e.1 v h) h' = l.foldl (fun h e => body e.1 e.2 h) h' := by
    intro l
    induction l with
    | nil => intro h' _ _; rfl
    | cons e l ih =>
      intro h' hl hm
      have he : (h'.maps a).lookup e.1 = some e.2 := by
        rw [hm]; exact hl e (List.mem_cons_self _ _)
      rw [List.foldl_cons, List.foldl_cons]
      simp only [he]
      exact ih _ (fun e' he' => hl e' (List.mem_cons_of_mem _ he')) ((hbody _ _ _).trans hm)
  apply key _ h _ rfl
  intro e he
  have : e.2 ∈ (h.maps a).lookup e.1 := AList.mem_lookup_iff.2 (by simpa using he)
  simpa using this

theorem NewSet_maps_self_nil (hs : T → U) (h : Heap U T) :
    (NewEmptySet hs h).2.maps h.next = ∅ := by
  simp [NewEmptySet, NewSet, Heap.make]

theorem NewEmptySet_maps_of_ne (hs : T → U) (h : Heap U T) (b : Nat) (hb : b ≠ h.next) :
    (NewEmptySet hs h).2.maps b = h.maps b :=
  NewSet_maps_of_ne [] hs h b hb

theorem deref_NewEmptySet (hs : T → U) (h : Heap U T) :
    (NewEmptySet hs h).1.deref (NewEmptySet hs h).2 = KeyedSet.NewEmptySet hs := by
  simp [Set.deref, NewEmptySet, NewSet, Heap.make, KeyedSet.NewEmptySet, KeyedSet.NewSet]

theorem deref_NewSet (xs : List T) (hs : T → U) (h : Heap U T) :
    (NewSet xs hs h).1.deref (NewSet xs hs h).2 = KeyedSet.NewSet xs hs := by
  have hsim := foldl_deref_sim { Elems := h.make.1, hasher := hs } (fun s x => s.Add x)
    (fun x h' => Set.Add { Elems := h.make.1, hasher := hs } x h') (fun _ => True)
    (fun _ _ _ => trivial) (fun x h' _ => deref_Add _ x h') xs h.make.2 trivial
  have h0 : Set.deref { Elems := h.make.1, hasher := hs } h.make.2 = KeyedSet.NewEmptySet hs :=
    deref_NewEmptySet hs h
  rw [h0] at hsim
  exact hsim

/-- A range over the map at `a`, not written by the body, whose steps act on
the set at `r` as `F` does on its value. -/
theorem range_deref_sim (a : Nat) (r : Set U T)
    (F : KeyedSet.Set U T → (Sigma fun _ : U => T) → KeyedSet.Set U T)
    (body : U → T → Heap U T → Heap U T) (I : Heap U T → Prop)
    (hframe : ∀ k v h, (body k v h).maps a = h.maps a)
    (hI : ∀ k v h, I h → I (body k v h))
    (hF : ∀ k v h, I h → r.deref (body k v h) = F (r.deref h) ⟨k, v⟩)
    (h : Heap U T) (hh : I h) :
    r.deref (Heap.range a body h) = (h.maps a).entries.foldl F (r.deref h) := by
  rw [range_eq_foldl a body hframe h]
  exact foldl_deref_sim r F (fun e h => body e.1 e.2 h) I (fun e h hi => hI e.1 e.2 h hi)
    (fun e h hi => hF e.1 e.2 h hi) _ h hh

theorem deref_Clone (s : Set U T) (h : Heap U T) (hs : s.Elems ≠ h.next) :
    (s.Clone h).1.deref (s.Clone h).2 = (s.deref h).Clone := by
  have hsim := range_deref_sim s.Elems (NewEmptySet s.hasher h).1
    (fun clone e => { clone with Elems := clone.Elems.insert e.1 e.2 })
    (fun k v h' => h'.write (NewEmptySet s.hasher h).1.Elems
      ((h'.maps (NewEmptySet s.hasher h).1.Elems).insert k v))
    (fun _ => True) (fun k v h' => write_maps_of_ne h' _ _ _ hs) (fun _ _ _ _ => trivial)
    (fun k v h' _ => deref_write_self _ h' _) (NewEmptySet s.hasher h).2 trivial
  rw [deref_NewEmptySet, NewEmptySet_maps_of_ne s.hasher h _ hs] at hsim
  exact hsim

theorem deref_Union (s1 s2 : Set U T) (h : Heap U T) (h1 : s1.Elems ≠ h.next)
    (h2 : s2.Elems ≠ h.next) :
    (Union s1 s2 h).1.deref (Union s1 s2 h).2 = KeyedSet.Union (s1.deref h) (s2.deref h) := by
  have hsim := range_deref_sim s2.Elems (s1.Clone h).1 (fun union e => union.Add e.2)
    (fun _ v h' => (s1.Clone h).1.Add v h') (fun _ => True)
    (fun k v h' => Add_maps_of_ne _ v h' _ h2) (fun _ _ _ _ => trivial)
    (fun k v h' _ => deref_Add _ v h') (s1.Clone h).2 trivial
  rw [deref_Clone s1 h h1, Clone_maps_of_ne s1 h _ h2] at hsim
  exact hsim

theorem deref_Intersect (s1 s2 : Set U T) (h : Heap U T) (h1 : s1.Elems ≠ h.next)
    (h2 : s2.Elems ≠ h.next) :
    (Intersect s1 s2 h).1.deref (Intersect s1 s2 h).2 =
      KeyedSet.Intersect (s1.deref h) (s2.deref h) := by
  have hsim := range_deref_sim s1.Elems (NewEmptySet s1.hasher h).1
    (fun intersection e =>
      if ((h.maps s2.Elems).lookup e.1).isSome then intersection.Add e.2 else intersection)
    (fun k v h' =>
      if ((h'.maps s2.Elems).lookup k).isSome then (NewEmptySet s1.hasher h).1.Add v h' else h')
    (fun h' => h'.maps s2.Elems = h.maps s2.Elems)
    (fun k v h' => by
      beta_reduce
      split
      · exact Add_maps_of_ne _ v h' _ h1
      · rfl)
    (fun k v h' hi => by
      beta_reduce
      split
      · exact (Add_maps_of_ne _ v h' _ h2).trans hi
      · exact hi)
    (fun k v h' hi => by
      simp only [hi]
      split
      · exact deref_Add _ v h'
      · rfl)
    (NewEmptySet s1.hasher h).2 (NewEmptySet_maps_of_ne s1.hasher h _ h2)
  rw [deref_NewEmptySet, NewEmptySet_maps_of_ne s1.hasher h _ h1] at hsim
  exact hsim

theorem deref_Difference (s1 s2 : Set U T) (h : Heap U T) (h1 : s1.Elems ≠ h.next)
    (h2 : s2.Elems ≠ h.next) :
    (Difference s1 s2 h).1.deref (Difference s1 s2 h).2 =
      KeyedSet.Difference (s1.deref h) (s2.deref h) := by
  have hsim := range_deref_sim s1.Elems (NewEmptySet s1.hasher h).1
    (fun diff e =>
      if ((h.maps s2.Elems).lookup e.1).isSome then diff else diff.Add e.2)
    (fun k v h' =>
      if ((h'.maps s2.Elems).lookup k).isSome then h' else (NewEmptySet s1.hasher h).1.Add v h')
    (fun h' => h'.maps s2.Elems = h.maps s2.Elems)
    (fun k v h' => by
      beta_reduce
      split
      · rfl
      · exact Add_maps_of_ne _ v h' _ h1)
    (fun k v h' hi => by
      beta_reduce
      split
      · exact hi
      · exact (Add_maps_of_ne _ v h' _ h2).trans hi)
    (fun k v h' hi => by
      simp only [hi]
      split
      · rfl
      · exact deref_Add _ v h')
    (NewEmptySet s1.hasher h).2 (NewEmptySet_maps_of_ne s1.hasher h _ h2)
  rw [deref_NewEmptySet, NewEmptySet_maps_of_ne s1.hasher h _ h1] at hsim
  exact hsim

theorem deref_Set_Union (s other : Set U T) (h : Heap U T) (hne : other.Elems ≠ s.Elems) :
    s.deref (s.Union other h) = (s.deref h).Union (other.deref h) :=
  range_deref_sim other.Elems s (fun acc e => acc.Add e.2) (fun _ v h' => s.Add v h')
    (fun _ => True) (fun _ v h' => Add_maps_of_ne s v h' _ hne) (fun _ _ _ _ => trivial)
    (fun _ v h' _ => deref_Add s v h') h trivial

theorem deref_Set_Union_self (s other : Set U T) (h : Heap U T) (heq : other.Elems = s.Elems) :
    s.deref (s.Union other h) = (s.deref h).UnionSelf := by
  unfold Set.Union Heap.range
  rw [heq]
  exact foldl_deref_sim s
    (fun acc (e : Sigma fun _ : U => T) =>
      match acc.Elems.lookup e.1 with
      | none => acc
      | some v => acc.Add v)
    (fun (e : Sigma fun _ : U => T) h' =>
      match (h'.maps s.Elems).lookup e.1 with
      | none => h'
      | some v => s.Add v h')
    (fun _ => True) (fun _ _ _ => trivial)
    (fun e h' _ => by
      show s.deref (match (h'.maps s.Elems).lookup e.1 with
        | none => h'
        | some v => s.Add v h') = (match (h'.maps s.Elems).lookup e.1 with
        | none => s.deref h'
        | some v => (s.deref h').Add v)
      cases (h'.maps s.Elems).lookup e.1 with
      | none => rfl
      | some v => exact deref_Add s v h')
    _ h trivial

theorem deref_Set_Intersect (s other : Set U T) (h : Heap U T) (hne : other.Elems ≠ s.Elems) :
    s.deref (s.Intersect other h) = (s.deref h).Intersect (other.deref h) := by
  unfold Set.Intersect Heap.range
  exact foldl_deref_sim s (fun acc (e : Sigma fun _ : U => T) => KeyedSet.Set.IntersectStep (other.deref h) acc e.1)
    (fun (e : Sigma fun _ : U => T) h' =>
      match (h'.maps s.Elems).lookup e.1 with
      | none => h'
      | some v => if ((h'.maps other.Elems).lookup e.1).isSome then h' else s.Remove v h')
    (fun h' => h'.maps other.Elems = h.maps other.Elems)
    (fun e h' hi => by
      beta_reduce
      split
      · exact hi
      · split
        · exact hi
        · exact (Remove_maps_of_ne s _ h' _ hne).trans hi)
    (fun e h' hi => by
      have hi' : h'.maps other.Elems = h.maps other.Elems := hi
      show s.deref (match (h'.maps s.Elems).lookup e.1 with
        | none => h'
        | some v => if ((h'.maps other.Elems).lookup e.1).isSome then h'
            else s.Remove v h') = (match (h'.maps s.Elems).lookup e.1 with
        | none => s.deref h'
        | some v => if ((h.maps other.Elems).lookup e.1).isSome then s.deref h'
            else (s.deref h').Remove v)
      rw [hi']
      cases (h'.maps s.Elems).lookup e.1 with
      | none => rfl
      | some v =>
        dsimp only
        split
        · rfl
        · exact deref_Remove s v h')
    _ h rfl

theorem deref_Set_Intersect_self (s other : Set U T) (h : Heap U T)
    (heq : other.Elems = s.Elems) :
    s.deref (s.Intersect other h) = (s.deref h).IntersectSelf := by
  unfold Set.Intersect Heap.range
  rw [heq]
  exact foldl_deref_sim s (fun acc (e : Sigma fun _ : U => T) => KeyedSet.Set.IntersectStep acc acc e.1)
    (fun (e : Sigma fun _ : U => T) h' =>
      match (h'.maps s.Elems).lookup e.1 with
      | none => h'
      | some v => if ((h'.maps s.Elems).lookup e.1).isSome then h' else s.Remove v h')
    (fun _ => True) (fun _ _ _ => trivial)
    (fun e h' _ => by
      show s.deref (match (h'.maps s.Elems).lookup e.1 with
        | none => h'
        | some v => if ((h'.maps s.Elems).lookup e.1).isSome then h'
            else s.Remove v h') = (match (h'.maps s.Elems).lookup e.1 with
        | none => s.deref h'
        | some v => if ((h'.maps s.Elems).lookup e.1).isSome then s.deref h'
            else (s.deref h').Remove v)
      cases (h'.maps s.Elems).lookup e.1 with
      | none => rfl
      | some v => rfl)
    _ h trivial

theorem deref_Set_Difference (s other : Set U T) (h : Heap U T) (hne : other.Elems ≠ s.Elems) :
    s.deref (s.Difference other h) = (s.deref h).Difference (other.deref h) := by
  unfold Set.Difference Heap.range
  exact foldl_deref_sim s (fun acc (e : Sigma fun _ : U => T) => KeyedSet.Set.DifferenceStep (other.deref h) acc e.1)
    (fun (e : Sigma fun _ : U => T) h' =>
      match (h'.maps s.Elems).lookup e.1 with
      | none => h'
      | some v => if ((h'.maps other.Elems).lookup e.1).isSome then s.Remove v h' else h')
    (fun h' => h'.maps other.Elems = h.maps other.Elems)
    (fun e h' hi => by
      beta_reduce
      split
      · exact hi
      · split
        · exact (Remove_maps_of_ne s _ h' _ hne).trans hi
        · exact hi)
    (fun e h' hi => by
      have hi' : h'.maps other.Elems = h.maps other.Elems := hi
      show s.deref (match (h'.maps s.Elems).lookup e.1 with
        | none => h'
        | some v => if ((h'.maps other.Elems).lookup e.1).isSome then s.Remove v h'
            else h') = (match (h'.maps s.Elems).lookup e.1 with
        | none => s.deref h'
        | some v => if ((h.maps other.Elems).lookup e.1).isSome then (s.deref h').Remove v
            else s.deref h')
      rw [hi']
      cases (h'.maps s.Elems).lookup e.1 with
      | none => rfl
      | some v =>
        dsimp only
        split
        · exact deref_Remove s v h'
        · rfl)
    _ h rfl

theorem deref_Set_Difference_self (s other : Set U T) (h : Heap U T)
    (heq : other.Elems = s.Elems) :
    s.deref (s.Difference other h) = (s.deref h).DifferenceSelf := by
  unfold Set.Difference Heap.range
  rw [heq]
  exact foldl_deref_sim s (fun acc (e : Sigma fun _ : U => T) => KeyedSet.Set.DifferenceStep acc acc e.1)
    (fun (e : Sigma fun _ : U => T) h' =>
      match (h'.maps s.Elems).lookup e.1 with
      | none => h'
      | some v => if ((h'.maps s.Elems).lookup e.1).isSome then s.Remove v h' else h')
    (fun _ => True) (fun _ _ _ => trivial)
    (fun e h' _ => by
      show s.deref (match (h'.maps s.Elems).lookup e.1 with
        | none => h'
        | some v => if ((h'.maps s.Elems).lookup e.1).isSome then s.Remove v h'
            else h') = (match (h'.maps s.Elems).lookup e.1 with
        | none => s.deref h'
        | some v => if ((h'.maps s.Elems).lookup e.1).isSome then (s.deref h').Remove v
            else s.deref h')
      cases (h'.maps s.Elems).lookup e.1 with
      | none => rfl
      | some v => exact deref_Remove s v h')
    _ h trivial

theorem IsSubset_fst (s other : Set U T) (h : Heap U T) (h1 : s.Elems ≠ h.next)
    (h2 : other.Elems ≠ h.next) :
    (s.IsSubset other h).1 = (s.deref h).IsSubset (other.deref h) := by
  show (((Intersect s other h).1.deref (Intersect s other h).2).Len ==
    (s.deref (Intersect s other h).2).Len) = _
  rw [deref_Intersect s other h h1 h2,
    deref_of_maps_eq s h _ (Intersect_maps_of_ne s other h _ h1)]
  rfl

theorem IsDisjoint_fst (s other : Set U T) (h : Heap U T) (h1 : s.Elems ≠ h.next)
    (h2 : other.Elems ≠ h.next) :
    (s.IsDisjoint other h).1 = (s.deref h).IsDisjoint (other.deref h) := by
  show (((Intersect s other h).1.deref (Intersect s other h).2).Len == 0) = _
  rw [deref_Intersect s other h h1 h2]
  rfl

theorem EqualLoop_eq (other : Set U T) (h : Heap U T) (l : List (Sigma fun _ : U => T)) :
    Set.EqualLoop other h l = KeyedSet.Set.EqualLoop (other.deref h) l := by
  induction l with
  | nil => rfl
  | cons e l ih =>
    rw [Set.EqualLoop, KeyedSet.Set.EqualLoop, ih]
    rfl

theorem Equal_fst (s other : Set U T) (h : Heap U T) :
    (s.Equal other h).1 = (s.deref h).Equal (other.deref h) := by
  show (if s.Len h ≠ other.Len h then false
    else Set.EqualLoop other h (h.maps s.Elems).entries) = _
  rw [EqualLoop_eq]
  rfl

end Mem

/-! ## The contracts of the operations -/

/-- C1. Pure `Union` is the right-biased merge.  For sets with the same key
function, the second satisfying the key invariant (the invariant of the first
is not needed): under every key `k` the union holds the value of `s2` when
`s2` has `k`, and what `s1` holds at `k` (a value or nothing) otherwise; hence
`Union(s1, s2).Has(e)` iff `s1.Has(e)` or `s2.Has(e)`, and on a key of both
sets the value of the second argument is stored. -/
theorem Union_right_biased_merge (s1 s2 : Set U T)
    (hh : s1.hasher = s2.hasher) (h2 : s2.KeyInv) :
    (∀ k v, s2.Elems.lookup k = some v → (Union s1 s2).Elems.lookup k = some v) ∧
    (∀ k, s2.Elems.lookup k = none → (Union s1 s2).Elems.lookup k = s1.Elems.lookup k) ∧
    (∀ e, (Union s1 s2).Has e = (s1.Has e || s2.Has e)) ∧
    (∀ k v1 v2, s1.Elems.lookup k = some v1 → s2.Elems.lookup k = some v2 →
      (Union s1 s2).Elems.lookup k = some v2) := by
  have hl := Union_lookup s1 s2 hh h2
  refine ⟨fun k v hv => ?_, fun k hk => ?_, fun e => ?_, fun k v1 v2 _ hv => ?_⟩
  · rw [hl, hv]; rfl
  · rw [hl, hk]; rfl
  · unfold Set.Has
    rw [Union_hasher, hl, ← hh]
    cases s2.Elems.lookup (s1.hasher e) <;> simp
  · rw [hl, hv]; rfl

/-- Witness of C1 on the sets of `TestUnion`: the shared id 3 holds the element
of `s2`. -/
theorem Union_right_biased_merge_witness :
    testS.hasher = testS2.hasher ∧ testS2.KeyInv ∧
    (Union testS testS2).Elems.lookup 3 = some ⟨3, 1⟩ ∧
    (Union testS testS2).Elems.lookup 1 = some ⟨1, 0⟩ ∧
    (Union testS testS2).Has ⟨4, 7⟩ = true :=
  ⟨rfl, by decide,
    (Union_right_biased_merge testS testS2 rfl (by decide)).1 3 ⟨3, 1⟩ (by decide),
    ((Union_right_biased_merge testS testS2 rfl (by decide)).2.1 1 (by decide)).trans
      (by decide),
    ((Union_right_biased_merge testS testS2 rfl (by decide)).2.2.1 ⟨4, 7⟩).trans (by decide)⟩

/-- C2. Pure `Intersect` keeps exactly the common keys with the values of the
first set.  When `s1` satisfies the key invariant: `Intersect(s1, s2)` has an
entry at `k` iff both sets have one, the value stored there is the one of
`s1`, and for sets sharing one key function `Intersect(s1, s2).Has(e)` iff
`s1.Has(e)` and `s2.Has(e)`. -/
theorem Intersect_common_keys_first_values (s1 s2 : Set U T) (h1 : s1.KeyInv) :
    (∀ k, k ∈ (Intersect s1 s2).Elems.keys ↔ k ∈ s1.Elems.keys ∧ k ∈ s2.Elems.keys) ∧
    (∀ k, k ∈ (Intersect s1 s2).Elems.keys →
      (Intersect s1 s2).Elems.lookup k = s1.Elems.lookup k) ∧
    (s1.hasher = s2.hasher →
      ∀ e, (Intersect s1 s2).Has e = (s1.Has e && s2.Has e)) := by
  have hl := Intersect_lookup s1 s2 h1
  refine ⟨fun k => ?_, fun k hk => ?_, fun hh e => ?_⟩
  · simp only [mem_keys_iff_isSome, hl]
    by_cases ho : (s2.Elems.lookup k).isSome = true <;> simp [ho]
  · rw [mem_keys_iff_isSome, hl] at hk
    rw [hl]
    by_cases ho : (s2.Elems.lookup k).isSome = true
    · simp [ho]
    · simp [ho] at hk
  · unfold Set.Has
    rw [Intersect_hasher, hl, ← hh]
    by_cases ho : (s2.Elems.lookup (s1.hasher e)).isSome = true <;> simp [ho]

/-- Witness of C2 on the sets of `TestIntersect`: only id 3 is kept, with the
element of `s`. -/
theorem Intersect_common_keys_first_values_witness :
    testS.KeyInv ∧
    (Intersect testS testS2).Elems.lookup 3 = some ⟨3, 0⟩ ∧
    (Intersect testS testS2).Has ⟨4, 0⟩ = false :=
  ⟨by decide,
    ((Intersect_common_keys_first_values testS testS2 (by decide)).2.1 3 (by decide)).trans
      (by decide),
    ((Intersect_common_keys_first_values testS testS2 (by decide)).2.2 rfl ⟨4, 0⟩).trans
      (by decide)⟩

/-- C3. Pure `Difference` keeps exactly the keys of the first set that the
second does not have, with the values of the first set.  When `s1` satisfies
the key invariant: `Difference(s1, s2)` has an entry at `k` iff `s1` has one
and `s2` has none, the value stored there is the one of `s1`, and for sets
sharing one key function `Difference(s1, s2).Has(e)` iff `s1.Has(e)` and not
`s2.Has(e)`. -/
theorem Difference_first_only_keys (s1 s2 : Set U T) (h1 : s1.KeyInv) :
    (∀ k, k ∈ (Difference s1 s2).Elems.keys ↔ k ∈ s1.Elems.keys ∧ k ∉ s2.Elems.keys) ∧
    (∀ k, k ∈ (Difference s1 s2).Elems.keys →
      (Difference s1 s2).Elems.lookup k = s1.Elems.lookup k) ∧
    (s1.hasher = s2.hasher →
      ∀ e, (Difference s1 s2).Has e = (s1.Has e && !s2.Has e)) := by
  have hl := Difference_lookup s1 s2 h1
  refine ⟨fun k => ?_, fun k hk => ?_, fun hh e => ?_⟩
  · simp only [mem_keys_iff_isSome, hl]
    by_cases ho : (s2.Elems.lookup k).isSome = true <;> simp [ho]
  · rw [mem_keys_iff_isSome, hl] at hk
    rw [hl]
    by_cases ho : (s2.Elems.lookup k).isSome = true
    · simp [ho] at hk
    · simp [ho]
  · unfold Set.Has
    rw [Difference_hasher, hl, ← hh]
    by_cases ho : (s2.Elems.lookup (s1.hasher e)).isSome = true <;> simp [ho]

/-- Witness of C3 on the sets of `TestDifference`: ids 1 and 2 are kept, id 3
is not. -/
theorem Difference_first_only_keys_witness :
    testS.KeyInv ∧
    (Difference testS testS2).Elems.lookup 1 = some ⟨1, 0⟩ ∧
    (Difference testS testS2).Has ⟨3, 0⟩ = false :=
  ⟨by decide,
    ((Difference_first_only_keys testS testS2 (by decide)).2.1 1 (by decide)).trans
      (by decide),
    ((Difference_first_only_keys testS testS2 (by decide)).2.2 rfl ⟨3, 0⟩).trans
      (by decide)⟩

/-- C4. `Add` is insert-or-overwrite by key.  After `s.Add(e)`: `Has` is true
for every element with the key of `e`; the value stored at that key is `e`;
the entry at every other key is unchanged; `Len` grows by one when the key
was absent and is unchanged when it was present. -/
theorem Add_insert_or_overwrite (s : Set U T) (e : T) :
    (∀ e', s.hasher e' = s.hasher e → (s.Add e).Has e' = true) ∧
    (s.Add e).Elems.lookup (s.hasher e) = some e ∧
    (∀ k, k ≠ s.hasher e → (s.Add e).Elems.lookup k = s.Elems.lookup k) ∧
    (s.Has e = false → (s.Add e).Len = s.Len + 1) ∧
    (s.Has e = true → (s.Add e).Len = s.Len) := by
  refine ⟨fun e' he' => ?_, ?_, fun k hk => ?_, fun h => ?_, fun h => ?_⟩
  · simp [Set.Has, lookup_Add, he']
  · simp [lookup_Add]
  · simp [lookup_Add, hk]
  · apply Len_Add_of_not_mem
    rw [← Has_iff_mem_keys, h]
    simp
  · exact Len_Add_of_mem s e ((Has_iff_mem_keys s e).1 h)

/-- Witness of C4 on the set `s` of the tests: adding another element with id 2
keeps `Len` and stores the new element; adding an element with id 5 grows
`Len` by one. -/
theorem Add_insert_or_overwrite_witness :
    (testS.Add ⟨2, 9⟩).Len = testS.Len ∧
    (testS.Add ⟨2, 9⟩).Elems.lookup 2 = some ⟨2, 9⟩ ∧
    (testS.Add ⟨5, 0⟩).Len = testS.Len + 1 :=
  ⟨(Add_insert_or_overwrite testS ⟨2, 9⟩).2.2.2.2 (by decide),
    (Add_insert_or_overwrite testS ⟨2, 9⟩).2.1,
    (Add_insert_or_overwrite testS ⟨5, 0⟩).2.2.2.1 (by decide)⟩

/-- C5. `Remove` deletes by key and does nothing on a non-member.  After
`s.Remove(e)`: `Has(e)` is false; the entry at every other key is unchanged;
`Len` is one less when `Has(e)` was true; the set is unchanged when `Has(e)`
was false. -/
theorem Remove_deletes_by_key (s : Set U T) (e : T) :
    (s.Remove e).Has e = false ∧
    (∀ k, k ≠ s.hasher e → (s.Remove e).Elems.lookup k = s.Elems.lookup k) ∧
    (s.Has e = true → (s.Remove e).Len + 1 = s.Len) ∧
    (s.Has e = false → s.Remove e = s) := by
  refine ⟨?_, fun k hk => ?_, fun h => ?_, fun h => ?_⟩
  · simp [Set.Has, lookup_Remove]
  · simp [lookup_Remove, hk]
  · have hm := (Has_iff_mem_keys s e).1 h
    have hpos : 0 < s.Elems.keys.length := List.length_pos_of_mem hm
    rw [Len_Remove_of_mem s e hm, Len_eq_keys_length]
    omega
  · apply Remove_of_not_mem
    rw [← Has_iff_mem_keys, h]
    simp

/-- Witness of C5 on the set `s` of the tests: removing an element with id 2
takes one entry away; removing an element with id 7 changes nothing. -/
theorem Remove_deletes_by_key_witness :
    (testS.Remove ⟨2, 9⟩).Len + 1 = testS.Len ∧
    (testS.Remove ⟨2, 9⟩).Has ⟨2, 0⟩ = false ∧
    testS.Remove ⟨7, 0⟩ = testS :=
  ⟨(Remove_deletes_by_key testS ⟨2, 9⟩).2.2.1 (by decide),
    by decide,
    (Remove_deletes_by_key testS ⟨7, 0⟩).2.2.2 (by decide)⟩

/-- C6. `NewSet` deduplicates a sequence by key, the last write winning.
`NewSet(xs, h).Len()` is the number of distinct keys of `xs`; `Has(e)` iff
some element of `xs` has the key of `e`; under every key `k` the stored value
is the last element of `xs` with key `k` (nothing when there is none); the
sets built from the empty list have `Len` 0 and `Has` false everywhere. -/
theorem NewSet_dedup_last_write_wins (xs : List T) (h : T → U) :
    (NewSet xs h).Len = (xs.map h).dedup.length ∧
    (∀ e, (NewSet xs h).Has e = true ↔ ∃ x ∈ xs, h x = h e) ∧
    (∀ k, (NewSet xs h).Elems.lookup k = xs.reverse.find? (fun x => decide (h x = k))) ∧
    (∀ pre x post, xs = pre ++ x :: post → (∀ y ∈ post, h y ≠ h x) →
      (NewSet xs h).Elems.lookup (h x) = some x) ∧
    (NewEmptySet h).Len = 0 ∧ (∀ e, (NewEmptySet h).Has e = false) ∧
    (NewSimpleSet : Set U U).Len = 0 ∧ (∀ e, (NewSimpleSet : Set U U).Has e = false) := by
  refine ⟨NewSet_Len xs h, fun e => ?_, NewSet_lookup xs h, ?_, rfl, fun _ => rfl, rfl,
    fun _ => rfl⟩
  · rw [Has_iff_mem_keys, NewSet_hasher, NewSet_mem_keys, List.mem_map]
  · rintro pre x post rfl hpost
    rw [NewSet_lookup]
    simp only [List.reverse_append, List.reverse_cons, List.append_assoc, List.singleton_append]
    rw [List.find?_append]
    have hnone : List.find? (fun y => decide (h y = h x)) post.reverse = none := by
      rw [List.find?_eq_none]
      intro y hy
      simpa using hpost y (List.mem_reverse.1 hy)
    rw [hnone]
    simp

/-- Witness of C6 on the slice of `TestNewSet`, ids 1, 2, 2, 3: three keys, and
id 2 holds the second of the two elements with that id. -/
theorem NewSet_dedup_last_write_wins_witness :
    (NewSet [(⟨1, 0⟩ : MyElement), ⟨2, 0⟩, ⟨2, 1⟩, ⟨3, 0⟩] MyHash).Len = 3 ∧
    (NewSet [(⟨1, 0⟩ : MyElement), ⟨2, 0⟩, ⟨2, 1⟩, ⟨3, 0⟩] MyHash).Elems.lookup 2 =
      some ⟨2, 1⟩ :=
  ⟨(NewSet_dedup_last_write_wins [(⟨1, 0⟩ : MyElement), ⟨2, 0⟩, ⟨2, 1⟩, ⟨3, 0⟩] MyHash).1.trans
      (by decide),
    (NewSet_dedup_last_write_wins [(⟨1, 0⟩ : MyElement), ⟨2, 0⟩, ⟨2, 1⟩, ⟨3, 0⟩] MyHash).2.2.2.1
      [⟨1, 0⟩, ⟨2, 0⟩] ⟨2, 1⟩ [⟨3, 0⟩] rfl (by decide)⟩

/-- C7. `IsSubset` decides key inclusion.  When `s` satisfies the key
invariant, `s.IsSubset(other)` (and `IsSubset(s, other)`) is true iff every
key of `s` is a key of `other`; `s.IsSuperset(other)` (and
`IsSuperset(s, other)`) is `other.IsSubset(s)`; an empty `s` is a subset of
every set and a non-empty `s` is not a subset of an empty set. -/
theorem IsSubset_decides_key_inclusion (s other : Set U T) (hs : s.KeyInv) :
    (s.IsSubset other = true ↔ ∀ k, k ∈ s.Elems.keys → k ∈ other.Elems.keys) ∧
    IsSubset s other = s.IsSubset other ∧
    (s.IsSuperset other = true ↔ other.IsSubset s = true) ∧
    IsSuperset s other = s.IsSuperset other ∧
    (s.Len = 0 → s.IsSubset other = true) ∧
    (0 < s.Len → other.Len = 0 → s.IsSubset other = false) := by
  have hiff := IsSubset_iff s other hs
  refine ⟨hiff, rfl, Iff.rfl, rfl, fun h0 => ?_, fun hpos h0 => ?_⟩
  · rw [hiff]
    intro k hk
    rw [Len_eq_keys_length] at h0
    rw [List.length_eq_zero.1 h0] at hk
    simp at hk
  · rw [Bool.eq_false_iff]
    intro h
    rw [hiff] at h
    rw [Len_eq_keys_length] at hpos h0
    obtain ⟨k, hk⟩ := List.exists_mem_of_length_pos hpos
    have := h k hk
    rw [List.length_eq_zero.1 h0] at this
    simp at this

/-- Witness of C7 on the sets of `TestIsSubsetAndIsSuperset`: `s3 = {2, 3}` is
a subset of `s = {1, 2, 3}`. -/
theorem IsSubset_decides_key_inclusion_witness :
    testS3.KeyInv ∧ testS3.IsSubset testS = true ∧
    (∀ k, k ∈ testS3.Elems.keys → k ∈ testS.Elems.keys) :=
  ⟨by decide, by decide,
    (IsSubset_decides_key_inclusion testS3 testS (by decide)).1.1 (by decide)⟩

/-- C8. `Equal` decides equality of the key sets and ignores the values.
`s.Equal(other)` (and `Equal(s, other)`) is true iff `s` and `other` store
exactly the same keys; it is symmetric; and it gives the same answer on any
sets `s'`, `other'` that have the keys of `s` and of `other`, whatever values
and key functions they hold. -/
theorem Equal_decides_key_set_equality (s other s' other' : Set U T)
    (hs : s'.Elems.keys.Perm s.Elems.keys) (ho : other'.Elems.keys.Perm other.Elems.keys) :
    (s.Equal other = true ↔ ∀ k, k ∈ s.Elems.keys ↔ k ∈ other.Elems.keys) ∧
    Equal s other = s.Equal other ∧
    s.Equal other = other.Equal s ∧
    s'.Equal other' = s.Equal other := by
  refine ⟨Equal_iff s other, rfl, ?_, ?_⟩
  · rw [Bool.eq_iff_iff, Equal_iff, Equal_iff]
    exact ⟨fun h k => (h k).symm, fun h k => (h k).symm⟩
  · rw [Bool.eq_iff_iff, Equal_iff, Equal_iff]
    constructor
    · intro h k
      rw [← hs.mem_iff, ← ho.mem_iff]
      exact h k
    · intro h k
      rw [hs.mem_iff, ho.mem_iff]
      exact h k

/-- Witness of C8 on the sets of `TestEqual`: `s` and `s3` hold different
elements under the keys 1, 2, 3 and are equal. -/
theorem Equal_decides_key_set_equality_witness :
    testS4.Elems.keys.Perm testS.Elems.keys ∧
    testS.Equal testS = true ∧ testS4.Equal testS4 = testS.Equal testS ∧
    testS4.Elems.lookup 1 ≠ testS.Elems.lookup 1 :=
  ⟨by decide, by decide,
    (Equal_decides_key_set_equality testS testS testS4 testS4 (by decide) (by decide)).2.2.2,
    by decide⟩

/-- C9. `IsDisjoint` decides the absence of a common key, for all sets.
`s1.IsDisjoint(s2)` (and `IsDisjoint(s1, s2)`) is `Intersect(s1, s2).Len() == 0`
and is true iff no key is stored in both sets; it is symmetric; an empty set
is disjoint from every set, on either side; a non-empty set is not disjoint
from itself. -/
theorem IsDisjoint_decides_no_common_key (s1 s2 : Set U T) :
    s1.IsDisjoint s2 = ((Intersect s1 s2).Len == 0) ∧
    IsDisjoint s1 s2 = s1.IsDisjoint s2 ∧
    (s1.IsDisjoint s2 = true ↔ ∀ k, ¬ (k ∈ s1.Elems.keys ∧ k ∈ s2.Elems.keys)) ∧
    s1.IsDisjoint s2 = s2.IsDisjoint s1 ∧
    (s1.Len = 0 → s1.IsDisjoint s2 = true ∧ s2.IsDisjoint s1 = true) ∧
    (0 < s1.Len → s1.IsDisjoint s1 = false) := by
  have hiff : ∀ a b : Set U T,
      a.IsDisjoint b = true ↔ ∀ k, ¬ (k ∈ a.Elems.keys ∧ k ∈ b.Elems.keys) := by
    intro a b
    rw [Set.IsDisjoint, beq_iff_eq, Intersect_Len_eq_zero]
  have hsymm : ∀ a b : Set U T, a.IsDisjoint b = b.IsDisjoint a := by
    intro a b
    rw [Bool.eq_iff_iff, hiff, hiff]
    exact ⟨fun h k hk => h k ⟨hk.2, hk.1⟩, fun h k hk => h k ⟨hk.2, hk.1⟩⟩
  have hempty : s1.Len = 0 → s1.IsDisjoint s2 = true := by
    intro h0
    rw [hiff]
    intro k hk
    rw [Len_eq_keys_length] at h0
    have := hk.1
    rw [List.length_eq_zero.1 h0] at this
    simp at this
  refine ⟨rfl, rfl, hiff s1 s2, hsymm s1 s2, fun h0 => ⟨hempty h0, ?_⟩, fun hpos => ?_⟩
  · rw [hsymm]; exact hempty h0
  · rw [Bool.eq_false_iff]
    intro h
    rw [hiff] at h
    rw [Len_eq_keys_length] at hpos
    obtain ⟨k, hk⟩ := List.exists_mem_of_length_pos hpos
    exact h k ⟨hk, hk⟩

/-- Witness of C9 on the sets of `TestIsDisjoint`: `s = {1, 2, 3}` and
`s2 = {4, 3}` share the key 3 and are not disjoint, in either order. -/
theorem IsDisjoint_decides_no_common_key_witness :
    testS.IsDisjoint testS2 = false ∧ testS2.IsDisjoint testS = false ∧
    testS.IsDisjoint testS = false :=
  ⟨by decide,
    (IsDisjoint_decides_no_common_key testS testS2).2.2.2.1.symm.trans (by decide),
    (IsDisjoint_decides_no_common_key testS testS).2.2.2.2.2 (by decide)⟩

/-- C10. The in-place mutators and the pure functions agree.  With `s` the
receiver before the call: `s.Union(other)` leaves in `s` the mapping of
`Union(s, other)`; when `s` satisfies the key invariant, `s.Intersect(other)`
leaves the mapping of `Intersect(s, other)` and `s.Difference(other)` the
mapping of `Difference(s, other)`; the key function is the one of `s` in all
six results.  The same holds when the argument is the receiver itself:
`s.Union(s)`, `s.Intersect(s)` and `s.Difference(s)` leave the mappings of
`Union(s, s)`, `Intersect(s, s)` and `Difference(s, s)`. -/
theorem in_place_agrees_with_pure (s other : Set U T) (hs : s.KeyInv) :
    (∀ k, (s.Union other).Elems.lookup k = (Union s other).Elems.lookup k) ∧
    (∀ k, (s.Intersect other).Elems.lookup k = (Intersect s other).Elems.lookup k) ∧
    (∀ k, (s.Difference other).Elems.lookup k = (Difference s other).Elems.lookup k) ∧
    (s.Union other).hasher = (Union s other).hasher ∧
    (s.Intersect other).hasher = (Intersect s other).hasher ∧
    (s.Difference other).hasher = (Difference s other).hasher ∧
    (∀ k, s.UnionSelf.Elems.lookup k = (Union s s).Elems.lookup k) ∧
    (∀ k, s.IntersectSelf.Elems.lookup k = (Intersect s s).Elems.lookup k) ∧
    (∀ k, s.DifferenceSelf.Elems.lookup k = (Difference s s).Elems.lookup k) := by
  refine ⟨fun k => ?_, fun k => ?_, fun k => ?_, ?_, ?_, ?_, fun k => ?_, fun k => ?_,
    fun k => ?_⟩
  · exact foldl_Add_lookup_congr other.Elems.entries s s.Clone (Clone_hasher s).symm
      (fun k' => (Clone_lookup s k').symm) k
  · rw [Set_Intersect_lookup s other hs, Intersect_lookup s other hs]
  · rw [Set_Difference_lookup s other hs, Difference_lookup s other hs]
  · rw [Set_Union_hasher, Union_hasher]
  · rw [Set_Intersect_hasher, Intersect_hasher]
  · rw [Set_Difference_hasher, Difference_hasher]
  · rw [UnionSelf_lookup s hs, Union_lookup s s rfl hs]
    cases s.Elems.lookup k <;> rfl
  · rw [IntersectSelf_eq, Intersect_lookup s s hs]
    cases s.Elems.lookup k <;> rfl
  · rw [DifferenceSelf_lookup s hs, Difference_lookup s s hs]
    cases s.Elems.lookup k <;> rfl

/-- Witness of C10 on the sets of the tests: in place and pure, the
intersection of `s` with `s2` keeps the element of `s` with id 3 and drops
id 1. -/
theorem in_place_agrees_with_pure_witness :
    testS.KeyInv ∧
    (testS.Intersect testS2).Elems.lookup 3 = some ⟨3, 0⟩ ∧
    (Intersect testS testS2).Elems.lookup 3 = some ⟨3, 0⟩ ∧
    (testS.Difference testS2).Elems.lookup 3 = (Difference testS testS2).Elems.lookup 3 :=
  ⟨by decide, by decide, by decide,
    (in_place_agrees_with_pure testS testS2 (by decide)).2.2.1 3⟩

/-- C11. The key invariant is established by the constructors and preserved by
every operation.  `NewSet`, `NewEmptySet` and `NewSimpleSet` return sets that
satisfy it; on a set `s` that satisfies it, `Add`, `Remove` and the in-place
`Union`, `Intersect` and `Difference` (with any argument, the receiver itself
included) leave a set that satisfies it; `Clone` and the pure `Union`,
`Intersect` and `Difference` with `s` as first argument return sets that
satisfy it and hold the key function of `s`. -/
theorem key_invariant_established_and_preserved (s other : Set U T) (xs : List T)
    (h : T → U) (e : T) (hs : s.KeyInv) :
    ((NewSet xs h).KeyInv ∧ (NewEmptySet h).KeyInv ∧ (NewSimpleSet : Set U U).KeyInv) ∧
    ((s.Add e).KeyInv ∧ (s.Remove e).KeyInv) ∧
    ((s.Union other).KeyInv ∧ (s.Intersect other).KeyInv ∧ (s.Difference other).KeyInv) ∧
    (s.UnionSelf.KeyInv ∧ s.IntersectSelf.KeyInv ∧ s.DifferenceSelf.KeyInv) ∧
    (s.Clone.KeyInv ∧ s.Clone.hasher = s.hasher) ∧
    ((Union s other).KeyInv ∧ (Union s other).hasher = s.hasher) ∧
    ((Intersect s other).KeyInv ∧ (Intersect s other).hasher = s.hasher) ∧
    ((Difference s other).KeyInv ∧ (Difference s other).hasher = s.hasher) :=
  ⟨⟨NewSet_KeyInv xs h, NewEmptySet_KeyInv h, NewEmptySet_KeyInv Id⟩,
    ⟨Add_KeyInv s e hs, Remove_KeyInv s e hs⟩,
    ⟨Set_Union_KeyInv s other hs, Set_Intersect_KeyInv s other hs,
      Set_Difference_KeyInv s other hs⟩,
    ⟨UnionSelf_KeyInv s hs, by rw [IntersectSelf_eq]; exact hs, DifferenceSelf_KeyInv s hs⟩,
    ⟨Clone_KeyInv s hs, Clone_hasher s⟩,
    ⟨Union_KeyInv s other hs, Union_hasher s other⟩,
    ⟨Intersect_KeyInv s other, Intersect_hasher s other⟩,
    ⟨Difference_KeyInv s other, Difference_hasher s other⟩⟩

/-- Witness of C11 on the sets of the tests: the union of `s` with a set built
with another key function still satisfies the invariant for the key function
of `s`. -/
theorem key_invariant_established_and_preserved_witness :
    testS.KeyInv ∧ (Union testS testConst).KeyInv ∧ (testS.Union testConst).KeyInv ∧
    (testS.Intersect testS2).KeyInv :=
  ⟨by decide,
    (key_invariant_established_and_preserved testS testConst [] MyHash ⟨0, 0⟩
      (by decide)).2.2.2.2.2.1.1,
    (key_invariant_established_and_preserved testS testConst [] MyHash ⟨0, 0⟩
      (by decide)).2.2.1.1,
    (key_invariant_established_and_preserved testS testS2 [] MyHash ⟨0, 0⟩
      (by decide)).2.2.1.2.1⟩

/-- C12. Mutual inclusion is equality.  For sets that satisfy the key invariant,
`IsSubset(s1, s2) && IsSubset(s2, s1)` and `Equal(s1, s2)` are the same
boolean. -/
theorem mutual_inclusion_is_equality (s1 s2 : Set U T) (h1 : s1.KeyInv) (h2 : s2.KeyInv) :
    (IsSubset s1 s2 && IsSubset s2 s1) = Equal s1 s2 := by
  rw [Bool.eq_iff_iff, Bool.and_eq_true]
  show (s1.IsSubset s2 = true ∧ s2.IsSubset s1 = true) ↔ s1.Equal s2 = true
  rw [IsSubset_iff s1 s2 h1, IsSubset_iff s2 s1 h2, Equal_iff]
  exact ⟨fun h k => ⟨h.1 k, h.2 k⟩, fun h => ⟨fun k => (h k).1, fun k => (h k).2⟩⟩

/-- Witness of C12 on the sets of `TestEqual`: `s` and `s3` include each other
and are equal; `s3 = {2, 3}` of the subset test and `s` are neither. -/
theorem mutual_inclusion_is_equality_witness :
    testS.KeyInv ∧ testS4.KeyInv ∧ Equal testS testS4 = true ∧
    (IsSubset testS3 testS && IsSubset testS testS3) = false :=
  ⟨by decide, by decide,
    (mutual_inclusion_is_equality testS testS4 (by decide) (by decide)).symm.trans (by decide),
    (mutual_inclusion_is_equality testS3 testS (by decide) (by decide)).trans (by decide)⟩

/-- C13, as stated, fails: two sets that each satisfy the key invariant for
their own key function, the first empty with the key function `ConstHash`, the
second the set `s` of the tests with ids 1, 2, 3.  Their union has one entry,
fewer than the three of the second set. -/
theorem Union_Len_lower_bound_fails_with_two_key_functions :
    (NewEmptySet ConstHash).KeyInv ∧ testS.KeyInv ∧
    (Union (NewEmptySet ConstHash) testS).Len = 1 ∧
    ¬ (max (NewEmptySet ConstHash).Len testS.Len ≤ (Union (NewEmptySet ConstHash) testS).Len) := by
  decide

/-- C13, amended.  For all sets, `s1.Len() <= Union(s1, s2).Len() <=
s1.Len() + s2.Len()`; when the two sets have the same key function and `s2`
satisfies the key invariant, also `s2.Len() <= Union(s1, s2).Len()`, hence
`max(s1.Len(), s2.Len()) <= Union(s1, s2).Len()`. -/
theorem Union_Len_bounds_same_key_function (s1 s2 : Set U T) :
    s1.Len ≤ (Union s1 s2).Len ∧ (Union s1 s2).Len ≤ s1.Len + s2.Len ∧
    (s1.hasher = s2.hasher → s2.KeyInv →
      max s1.Len s2.Len ≤ (Union s1 s2).Len ∧ (Union s1 s2).Len ≤ s1.Len + s2.Len) := by
  have hb := Union_Len_bounds s1 s2
  refine ⟨hb.1, hb.2, fun hh h2 => ⟨?_, hb.2⟩⟩
  have hsub : s2.Len ≤ (Union s1 s2).Len := by
    rw [Len_eq_card, Len_eq_card, Union_keys_toFinset s1 s2 hh h2]
    exact Finset.card_le_card Finset.subset_union_right
  exact max_le hb.1 hsub

/-- Witness of the amended C13 on the sets of `TestUnion`: the union of
`{1, 2, 3}` and `{4, 3}` has 4 entries, between 3 and 5. -/
theorem Union_Len_bounds_same_key_function_witness :
    testS.hasher = testS2.hasher ∧ testS2.KeyInv ∧ (Union testS testS2).Len = 4 ∧
    max testS.Len testS2.Len ≤ (Union testS testS2).Len ∧
    (Union testS testS2).Len ≤ testS.Len + testS2.Len :=
  ⟨rfl, by decide, by decide,
    (Union_Len_bounds_same_key_function testS testS2).2.2 rfl (by decide)⟩

/-- C14. `Clone` is a faithful copy.  For a set `s` that satisfies the key
invariant, `s.Clone()` has the value of `s` under every key, hence the same
`Len` and the same `Has` answers, and the key function of `s`;
`Equal(s, s.Clone())` is true; and `s.Union(s.Clone())` leaves `s.Len()`
unchanged. -/
theorem Clone_faithful_copy (s : Set U T) (hs : s.KeyInv) :
    (∀ k, s.Clone.Elems.lookup k = s.Elems.lookup k) ∧
    s.Clone.Len = s.Len ∧
    (∀ e, s.Clone.Has e = s.Has e) ∧
    s.Clone.hasher = s.hasher ∧
    Equal s s.Clone = true ∧
    (s.Union s.Clone).Len = s.Len := by
  refine ⟨Clone_lookup s, Clone_Len s, fun e => ?_, Clone_hasher s, ?_, ?_⟩
  · unfold Set.Has
    rw [Clone_hasher, Clone_lookup]
  · show s.Equal s.Clone = true
    rw [Equal_iff]
    intro k
    rw [mem_keys_iff_isSome, mem_keys_iff_isSome, Clone_lookup]
  · apply Len_eq_of_lookup_eq
    intro k
    rw [Set_Union_lookup s s.Clone (Clone_hasher s).symm (Clone_KeyInv s hs), Clone_lookup]
    cases s.Elems.lookup k <;> rfl

/-- Witness of C14 on the set of `TestClone`: the clone of `{1, 2, 3}` has 3
entries and holds the same element under id 2. -/
theorem Clone_faithful_copy_witness :
    testS.KeyInv ∧ testS.Clone.Len = 3 ∧
    testS.Clone.Elems.lookup 2 = some ⟨2, 0⟩ ∧ (testS.Union testS.Clone).Len = 3 :=
  ⟨by decide,
    (Clone_faithful_copy testS (by decide)).2.1.trans (by decide),
    ((Clone_faithful_copy testS (by decide)).1 2).trans (by decide),
    (Clone_faithful_copy testS (by decide)).2.2.2.2.2.trans (by decide)⟩

/-- C15. Inclusion is reflexive.  For every set `s` that satisfies the key
invariant, the empty set included, `s.IsSubset(s)` and `s.IsSuperset(s)` are
true. -/
theorem IsSubset_reflexive (s : Set U T) (hs : s.KeyInv) :
    s.IsSubset s = true ∧ s.IsSuperset s = true ∧
    IsSubset s s = true ∧ IsSuperset s s = true := by
  have h : s.IsSubset s = true := (IsSubset_iff s s hs).2 (fun _ hk => hk)
  exact ⟨h, h, h, h⟩

/-- Witness of C15 on the set `s` of the tests and on the empty set. -/
theorem IsSubset_reflexive_witness :
    testS.KeyInv ∧ testS.IsSubset testS = true ∧
    (NewEmptySet MyHash).IsSuperset (NewEmptySet MyHash) = true :=
  ⟨by decide, (IsSubset_reflexive testS (by decide)).1,
    (IsSubset_reflexive (NewEmptySet MyHash) (by decide)).2.1⟩

/-- C16. `ToList` returns exactly the stored values, each once, in some order.
For every set `s`, `s.ToList()` is a permutation of the values of the entries
of `s`: its length is `s.Len()`, its members are the values stored under some
key, and two sets with the same mapping return permutations of each other;
every returned element satisfies `s.Has` when `s` satisfies the key
invariant.  For a list `xs` of elements with pairwise distinct keys, `ToList`
of the set obtained by adding the elements of `xs` to an empty set is a
permutation of `xs`. -/
theorem ToList_permutation_of_values (s : Set U T) :
    s.ToList.Perm (s.Elems.entries.map Sigma.snd) ∧
    s.ToList.length = s.Len ∧
    (∀ x, x ∈ s.ToList ↔ ∃ k, s.Elems.lookup k = some x) ∧
    (∀ s' : Set U T, (∀ k, s'.Elems.lookup k = s.Elems.lookup k) → s'.ToList.Perm s.ToList) ∧
    (s.KeyInv → ∀ x ∈ s.ToList, s.Has x = true) ∧
    (∀ (xs : List T) (h : T → U), (xs.map h).Nodup →
      (xs.foldl (fun a x => a.Add x) (NewEmptySet h)).ToList.Perm xs) := by
  have hmem : ∀ x, x ∈ s.ToList ↔ ∃ k, s.Elems.lookup k = some x := by
    intro x
    rw [ToList_eq, List.mem_map]
    constructor
    · rintro ⟨e, he, rfl⟩
      refine ⟨e.1, ?_⟩
      have : e.2 ∈ s.Elems.lookup e.1 := AList.mem_lookup_iff.2 (by simpa using he)
      simpa using this
    · rintro ⟨k, hk⟩
      exact ⟨⟨k, x⟩, AList.mem_lookup_iff.1 (by simp [hk]), rfl⟩
  refine ⟨by rw [ToList_eq], by rw [ToList_eq, List.length_map]; rfl, hmem, fun s' hs' => ?_,
    fun hs x hx => ?_, fun xs h hnd => NewSet_ToList_perm xs h hnd⟩
  · rw [ToList_eq, ToList_eq]
    exact (GoMap.perm_of_lookup_eq hs').map _
  · obtain ⟨k, hk⟩ := (hmem x).1 hx
    have hkx : s.hasher x = k := (KeyInv_iff_lookup s).1 hs k x hk
    unfold Set.Has
    rw [hkx, hk]
    rfl

/-- Witness of C16 on the slice of `TestTypeAliasAndToList` (ids 1 and 2) and on
the set `s` of the tests. -/
theorem ToList_permutation_of_values_witness :
    testS.KeyInv ∧ testS.ToList.length = 3 ∧ testS.Has ⟨2, 0⟩ = true ∧
    (([(⟨1, 0⟩ : MyElement), ⟨2, 0⟩].foldl (fun a x => a.Add x)
      (NewEmptySet MyHash)).ToList.Perm [⟨1, 0⟩, ⟨2, 0⟩]) :=
  ⟨by decide,
    (ToList_permutation_of_values testS).2.1.trans (by decide),
    (ToList_permutation_of_values testS).2.2.2.2.1 (by decide) ⟨2, 0⟩ (by decide),
    (ToList_permutation_of_values testS).2.2.2.2.2 [⟨1, 0⟩, ⟨2, 0⟩] MyHash (by decide)⟩

/-- C17, as stated, fails on a set that does not satisfy the key invariant: the
element with id 2 stored under the key 1.  With `E` the empty set with the same
key function, `s.Intersect(E)` leaves the entry in place, since
`s.Remove(v)` deletes the key 2, and `Difference(s, E)` stores the element
under the key 2 and nothing under the key 1. -/
theorem edge_inputs_fail_without_key_invariant :
    testIll.hasher = (NewEmptySet MyHash : Set Int MyElement).hasher ∧
    (NewEmptySet MyHash : Set Int MyElement).Len = 0 ∧
    (testIll.Intersect (NewEmptySet MyHash)).Len ≠ 0 ∧
    (Difference testIll (NewEmptySet MyHash)).Elems.lookup 1 ≠ testIll.Elems.lookup 1 :=
  ⟨rfl, rfl, by decide, by decide⟩

/-- C17, amended.  With `E` an empty set: for every set `s`, `Intersect(s, E)`,
`Intersect(E, s)` and `Difference(E, s)` are empty, `Union(s, E)` has the
mapping of `s`, `Remove` of a non-member leaves `s` as it is and `Add` of an
element with a key already present overwrites the value and keeps `Len`; for
every set `s` that satisfies the key invariant, `s` is empty after
`s.Intersect(E)` and `Difference(s, E)` has the mapping of `s`.  Every
operation is a total function: none has an error or panic branch. -/
theorem edge_inputs_complete_normally (s E : Set U T) (hE : E.Len = 0) :
    (Intersect s E).Len = 0 ∧ (Intersect E s).Len = 0 ∧ (Difference E s).Len = 0 ∧
    (∀ k, (Union s E).Elems.lookup k = s.Elems.lookup k) ∧
    (s.KeyInv → (s.Intersect E).Len = 0) ∧
    (s.KeyInv → ∀ k, (Difference s E).Elems.lookup k = s.Elems.lookup k) ∧
    (∀ e, s.Has e = false → s.Remove e = s) ∧
    (∀ e, s.Has e = true →
      (s.Add e).Len = s.Len ∧ (s.Add e).Elems.lookup (s.hasher e) = some e) := by
  have hnil : E.Elems.entries = [] := List.length_eq_zero.1 hE
  have hkeys : E.Elems.keys = [] := by simp [AList.keys, hnil]
  have hlk : ∀ k, E.Elems.lookup k = none := lookup_eq_none_of_Len_eq_zero E hE
  refine ⟨?_, ?_, ?_, fun k => ?_, fun hs => ?_, fun hs k => ?_, fun e he => ?_, fun e he => ?_⟩
  · rw [Intersect_Len_eq_zero]
    intro k hk
    have := hk.2
    rw [hkeys] at this
    simp at this
  · rw [Intersect_Len_eq_zero]
    intro k hk
    have := hk.1
    rw [hkeys] at this
    simp at this
  · rw [Difference_eq_foldl, hnil]
    rfl
  · rw [Union, hnil]
    exact Clone_lookup s k
  · apply Len_eq_zero_of_lookup_eq_none
    intro k
    rw [Set_Intersect_lookup s E hs, hlk k]
    rfl
  · rw [Difference_lookup s E hs, hlk k]
    rfl
  · apply Remove_of_not_mem
    rw [← Has_iff_mem_keys, he]
    simp
  · exact ⟨Len_Add_of_mem s e ((Has_iff_mem_keys s e).1 he), by simp [lookup_Add]⟩

/-- Witness of the amended C17 on the set `s` of the tests and the empty set. -/
theorem edge_inputs_complete_normally_witness :
    (NewEmptySet MyHash : Set Int MyElement).Len = 0 ∧ testS.KeyInv ∧
    (testS.Intersect (NewEmptySet MyHash)).Len = 0 ∧
    (Difference testS (NewEmptySet MyHash)).Elems.lookup 2 = some ⟨2, 0⟩ ∧
    testS.Remove ⟨9, 0⟩ = testS :=
  ⟨rfl, by decide,
    (edge_inputs_complete_normally testS (NewEmptySet MyHash) rfl).2.2.2.2.1 (by decide),
    ((edge_inputs_complete_normally testS (NewEmptySet MyHash) rfl).2.2.2.2.2.1 (by decide)
      2).trans (by decide),
    (edge_inputs_complete_normally testS (NewEmptySet MyHash) rfl).2.2.2.2.2.2.1 ⟨9, 0⟩
      (by decide)⟩

/-- C18. Pure operations and clones do not disturb their inputs.  On a store of
maps in which `s1` is allocated: computing `Union(s1, s2)`,
`Intersect(s1, s2)`, `Difference(s1, s2)`, `IsSubset`, `IsSuperset`,
`IsDisjoint` or `Equal` leaves every map allocated before the call, those of
`s1` and `s2` among them, exactly as it was; the in-place `s1.Union(s2)`,
`s1.Intersect(s2)` and `s1.Difference(s2)` leave every map other than the one
of `s1` as it was, the one of `s2` among them when it is another map; the map
of `c = s1.Clone()` is another map than the one of `s1`, `Clone` and a later
`c.Add(e)` or `c.Remove(e)` leave every map allocated before the clone as it
was, and a later `s1.Add(e)` or `s1.Remove(e)` leaves the map of `c` as it
was. -/
theorem pure_operations_and_clones_do_not_disturb (h : Mem.Heap U T) (s1 s2 : Mem.Set U T)
    (e : T) (hs1 : s1.Elems < h.next) :
    (∀ a, a < h.next →
      (Mem.Union s1 s2 h).2.maps a = h.maps a ∧
      (Mem.Intersect s1 s2 h).2.maps a = h.maps a ∧
      (Mem.Difference s1 s2 h).2.maps a = h.maps a ∧
      (Mem.IsSubset s1 s2 h).2.maps a = h.maps a ∧
      (Mem.IsSuperset s1 s2 h).2.maps a = h.maps a ∧
      (Mem.IsDisjoint s1 s2 h).2.maps a = h.maps a ∧
      (Mem.Equal s1 s2 h).2.maps a = h.maps a) ∧
    (∀ a, a ≠ s1.Elems →
      (s1.Union s2 h).maps a = h.maps a ∧
      (s1.Intersect s2 h).maps a = h.maps a ∧
      (s1.Difference s2 h).maps a = h.maps a) ∧
    (s1.Clone h).1.Elems ≠ s1.Elems ∧
    (∀ a, a < h.next →
      (s1.Clone h).2.maps a = h.maps a ∧
      ((s1.Clone h).1.Add e (s1.Clone h).2).maps a = h.maps a ∧
      ((s1.Clone h).1.Remove e (s1.Clone h).2).maps a = h.maps a) ∧
    (s1.Add e (s1.Clone h).2).maps (s1.Clone h).1.Elems =
      (s1.Clone h).2.maps (s1.Clone h).1.Elems ∧
    (s1.Remove e (s1.Clone h).2).maps (s1.Clone h).1.Elems =
      (s1.Clone h).2.maps (s1.Clone h).1.Elems := by
  have hne : (s1.Clone h).1.Elems ≠ s1.Elems := by
    rw [Mem.Clone_Elems]
    exact fun heq => absurd hs1 (by rw [heq]; exact Nat.lt_irrefl _)
  refine ⟨fun a ha => ?_, fun a ha => ?_, hne, fun a ha => ?_, ?_, ?_⟩
  · have hb : a ≠ h.next := Nat.ne_of_lt ha
    exact ⟨Mem.Union_maps_of_ne s1 s2 h a hb, Mem.Intersect_maps_of_ne s1 s2 h a hb,
      Mem.Difference_maps_of_ne s1 s2 h a hb, Mem.Intersect_maps_of_ne s1 s2 h a hb,
      Mem.Intersect_maps_of_ne s2 s1 h a hb, Mem.Intersect_maps_of_ne s1 s2 h a hb, rfl⟩
  · exact ⟨Mem.Set_Union_maps_of_ne s1 s2 h a ha, Mem.Set_Intersect_maps_of_ne s1 s2 h a ha,
      Mem.Set_Difference_maps_of_ne s1 s2 h a ha⟩
  · have hb : a ≠ h.next := Nat.ne_of_lt ha
    have hc : (s1.Clone h).2.maps a = h.maps a := Mem.Clone_maps_of_ne s1 h a hb
    refine ⟨hc, ?_, ?_⟩
    · rw [Mem.Add_maps_of_ne _ e _ a (by rw [Mem.Clone_Elems]; exact hb), hc]
    · rw [Mem.Remove_maps_of_ne _ e _ a (by rw [Mem.Clone_Elems]; exact hb), hc]
  · exact Mem.Add_maps_of_ne s1 e _ _ hne
  · exact Mem.Remove_maps_of_ne s1 e _ _ hne

/-- Witness of C18 on the store of the tests, `s` at address 0 and `s2` at
address 1: after `Union(s, s2)` the map of `s` is as before, after
`s.Intersect(s2)` the map of `s2` is as before, and adding to the clone of
`s` leaves `s` as before. -/
theorem pure_operations_and_clones_do_not_disturb_witness :
    Mem.refS.Elems < Mem.testHeap.next ∧
    (Mem.Union Mem.refS Mem.refS2 Mem.testHeap).2.maps 0 = Mem.testHeap.maps 0 ∧
    (Mem.refS.Intersect Mem.refS2 Mem.testHeap).maps 1 = Mem.testHeap.maps 1 ∧
    ((Mem.refS.Clone Mem.testHeap).1.Add ⟨9, 0⟩ (Mem.refS.Clone Mem.testHeap).2).maps 0 =
      Mem.testHeap.maps 0 ∧
    ((Mem.refS.Intersect Mem.refS2 Mem.testHeap).maps 0).entries ≠
      (Mem.testHeap.maps 0).entries :=
  ⟨by decide,
    ((pure_operations_and_clones_do_not_disturb Mem.testHeap Mem.refS Mem.refS2 ⟨9, 0⟩
      (by decide)).1 0 (by decide)).1,
    ((pure_operations_and_clones_do_not_disturb Mem.testHeap Mem.refS Mem.refS2 ⟨9, 0⟩
      (by decide)).2.1 1 (by decide)).2.1,
    ((pure_operations_and_clones_do_not_disturb Mem.testHeap Mem.refS Mem.refS2 ⟨9, 0⟩
      (by decide)).2.2.2.1 0 (by decide)).2.1,
    by decide⟩

/-- C19. Inclusion-exclusion.  For sets with the same key function that satisfy
the key invariant, `Union(s1, s2).Len() + Intersect(s1, s2).Len()` is
`s1.Len() + s2.Len()`. -/
theorem Union_Intersect_inclusion_exclusion (s1 s2 : Set U T)
    (hh : s1.hasher = s2.hasher) (h1 : s1.KeyInv) (h2 : s2.KeyInv) :
    (Union s1 s2).Len + (Intersect s1 s2).Len = s1.Len + s2.Len := by
  rw [Len_eq_card, Len_eq_card, Len_eq_card, Len_eq_card, Union_keys_toFinset s1 s2 hh h2,
    Intersect_keys_toFinset s1 s2 h1]
  exact Finset.card_union_add_card_inter _ _

/-- Witness of C19 on the sets of the tests: `{1, 2, 3}` and `{4, 3}` give
4 + 1 = 3 + 2. -/
theorem Union_Intersect_inclusion_exclusion_witness :
    testS.hasher = testS2.hasher ∧ testS.KeyInv ∧ testS2.KeyInv ∧
    (Union testS testS2).Len = 4 ∧ (Intersect testS testS2).Len = 1 ∧
    (Union testS testS2).Len + (Intersect testS testS2).Len = testS.Len + testS2.Len :=
  ⟨rfl, by decide, by decide, by decide, by decide,
    Union_Intersect_inclusion_exclusion testS testS2 rfl (by decide) (by decide)⟩

/-- C20. `Intersect` and `Difference` partition the first set.  When `s1`
satisfies the key invariant, `Intersect(s1, s2)` and `Difference(s1, s2)` are
disjoint, their lengths add up to `s1.Len()`, and their union holds under every
key what `s1` holds there. -/
theorem Intersect_Difference_partition (s1 s2 : Set U T) (h1 : s1.KeyInv) :
    IsDisjoint (Intersect s1 s2) (Difference s1 s2) = true ∧
    (Intersect s1 s2).Len + (Difference s1 s2).Len = s1.Len ∧
    (∀ k, (Union (Intersect s1 s2) (Difference s1 s2)).Elems.lookup k =
      s1.Elems.lookup k) := by
  refine ⟨?_, ?_, fun k => ?_⟩
  · show (Intersect s1 s2).IsDisjoint (Difference s1 s2) = true
    rw [Set.IsDisjoint, beq_iff_eq, Intersect_Len_eq_zero]
    intro k hk
    have hi := (Intersect_mem_keys_iff s1 s2 h1 k).1 hk.1
    have hd := (Difference_mem_keys_iff s1 s2 h1 k).1 hk.2
    exact hd.2 hi.2
  · rw [Len_eq_card, Len_eq_card, Len_eq_card, Intersect_keys_toFinset s1 s2 h1,
      Difference_keys_toFinset s1 s2 h1]
    exact Finset.card_inter_add_card_sdiff _ _
  · rw [Union_lookup _ _ ((Intersect_hasher s1 s2).trans (Difference_hasher s1 s2).symm)
      (Difference_KeyInv s1 s2), Difference_lookup s1 s2 h1, Intersect_lookup s1 s2 h1]
    by_cases ho : (s2.Elems.lookup k).isSome = true
    · simp [ho]
    · simp only [ho]
      cases s1.Elems.lookup k <;> rfl

/-- Witness of C20 on the sets of the tests: `{1, 2, 3}` splits into `{3}` and
`{1, 2}` against `{4, 3}`. -/
theorem Intersect_Difference_partition_witness :
    testS.KeyInv ∧ (Intersect testS testS2).Len = 1 ∧ (Difference testS testS2).Len = 2 ∧
    (Union (Intersect testS testS2) (Difference testS testS2)).Elems.lookup 3 =
      some ⟨3, 0⟩ :=
  ⟨by decide, by decide, by decide,
    ((Intersect_Difference_partition testS testS2 (by decide)).2.2 3).trans (by decide)⟩

end KeyedSet
